import Mathlib

/-!
Shallow embedding of sheldon's lock engine (`src/lock/mod.rs`).

The orchestrator function `config`, the defaults provider (`Shell.default_matches`,
`Shell.default_templates`, `Shell.default_apply`), the verifier (`LockedConfig.verify`,
`LockedExternalPlugin.dir`) and the persistence glue are translated from the source.
The two collaborators `source::lock` and `plugin::lock` are opaque at this boundary and
are passed in as function parameters, so every theorem below holds for arbitrary
collaborator behaviour.  Data shapes whose defining modules are not part of the sample
(`crate::config`, `crate::context`, `lock/file.rs`) are modelled from the spec and are
marked as such in their doc comments.
-/

/-- Modelled from the spec: the resolved settings record (`crate::context::Settings` is
not in the sample); an immutable record of resolved paths plus a version tag, compared
for equality to detect environment drift. -/
structure Settings where
  version : String
  home : String
  config_dir : String
  data_dir : String
  config_file : String
  lock_file : String
  clone_dir : String
  download_dir : String
  deriving DecidableEq, Repr

/-- Modelled from the spec: the context passed into the lock core; the parts the
orchestrator reads are the current settings. -/
structure LockContext where
  settings : Settings
  deriving DecidableEq, Repr

/-- Modelled from the spec: a structural descriptor of where a plugin's code
originates (`crate::config::Source` is not in the sample); equality is structural and
is what the orchestrator deduplicates on. -/
inductive Source where
  | git (url : String) (reference : Option String)
  | remote (url : String)
  | localDir (path : String)
  deriving DecidableEq, Repr

/-- Modelled from the spec: the display form of a source (`source.to_string()` in the
orchestrator), used to tag source-install errors. -/
def Source.toStr : Source → String
  | .git url _ => url
  | .remote url => url
  | .localDir path => path

/-- Modelled from the spec: a named string pattern with placeholders plus a flag
saying whether it is applied once per plugin or once per matched file
(`crate::config::Template` is not in the sample). -/
structure Template where
  value : String
  each : Bool
  deriving DecidableEq, Repr

/-- Modelled from the spec: an external (pre-lock) plugin: name, `Source`, optional
subdirectory, optional file-match override, optional per-plugin apply override
(`crate::config::ExternalPlugin` is not in the sample; the field list is visible in
the sample's unit tests). -/
structure ExternalPlugin where
  name : String
  source : Source
  dir : Option String
  uses : Option (List String)
  apply : Option (List String)
  deriving DecidableEq, Repr

/-- Modelled from the spec: an inline plugin, a name plus an already fully specified
raw script (`crate::config::InlinePlugin` is not in the sample). -/
structure InlinePlugin where
  name : String
  raw : String
  deriving DecidableEq, Repr

/-- Modelled from the spec: a user-declared plugin, external or inline
(`crate::config::Plugin` is not in the sample). -/
inductive Plugin where
  | external (plugin : ExternalPlugin)
  | inline (plugin : InlinePlugin)
  deriving DecidableEq, Repr

/-- Modelled from the spec: the shell dialect (`crate::config::Shell` is not in the
sample; the two variants are matched on in `default_matches`/`default_templates`). -/
inductive Shell where
  | bash
  | zsh
  deriving DecidableEq, Repr

/-- Modelled from the spec: the declarative configuration consumed by the
orchestrator (`crate::config::Config` is not in the sample; its five fields are
destructured at the top of `config`). -/
structure Config where
  shell : Shell
  «matches» : Option (List String)
  apply : Option (List String)
  templates : List (String × Template)
  plugins : List Plugin
  deriving DecidableEq, Repr

/-- Modelled from the spec: the installed-source handle returned by the Source
Installer collaborator, exposing its root directory (`lock/source.rs` is not in the
sample). -/
structure LockedSource where
  dir : String
  deriving DecidableEq, Repr

/-- Modelled from the spec: a locked external plugin: resolved installed-source
directory, optional plugin subdirectory, the concrete list of matched files and the
resolved apply list (`lock/file.rs` is not in the sample; `dir()` and `verify` in the
sample read `plugin_dir`, `source_dir` and `files`). -/
structure LockedExternalPlugin where
  name : String
  source_dir : String
  plugin_dir : Option String
  files : List String
  apply : List String
  deriving DecidableEq, Repr

/-- Modelled from the spec: a locked plugin, either a locked external plugin or an
inline plugin carried over unchanged (`lock/file.rs` is not in the sample). -/
inductive LockedPlugin where
  | external (plugin : LockedExternalPlugin)
  | inline (plugin : InlinePlugin)
  deriving DecidableEq, Repr

/-- Modelled from the spec: the locked artifact: settings snapshot, merged template
map, non-fatal errors, and the ordered locked plugins (`lock/file.rs` is not in the
sample; the struct literal is visible at the end of `config`).  Errors are modelled by
their display strings. -/
structure LockedConfig where
  settings : Settings
  templates : List (String × Template)
  errors : List String
  plugins : List LockedPlugin
  deriving DecidableEq, Repr

/-- Models `anyhow`'s `with_context`: a failure is wrapped with a context message, a
success is passed through. -/
def withCtx {α : Type} (msg : String) : Except String α → Except String α
  | .ok a => .ok a
  | .error e => .error (msg ++ ": " ++ e)

/-- Type of the Source Installer collaborator (`source::lock`). -/
abbrev SourceLock := LockContext → Source → Except String LockedSource

/-- Type of the Plugin Locker collaborator (`plugin::lock`); it receives the context,
the merged template map, the installed source, the effective match patterns, the
effective apply list and the plugin. -/
abbrev PluginLock := LockContext → List (String × Template) → LockedSource →
    List String → List String → ExternalPlugin → Except String LockedExternalPlugin

/-- Default files to match on for each shell (`Shell::default_matches`,
src/lock/mod.rs lines 151-180). -/
def Shell.default_matches : Shell → List String
  | .bash =>
      ["\x7b\x7b name \x7d\x7d.plugin.bash", "\x7b\x7b name \x7d\x7d.plugin.sh",
       "\x7b\x7b name \x7d\x7d.bash", "\x7b\x7b name \x7d\x7d.sh",
       "*.plugin.bash", "*.plugin.sh", "*.bash", "*.sh"]
  | .zsh =>
      ["\x7b\x7b name \x7d\x7d.plugin.zsh", "\x7b\x7b name \x7d\x7d.zsh",
       "\x7b\x7b name \x7d\x7d.sh", "\x7b\x7b name \x7d\x7d.zsh-theme",
       "*.plugin.zsh", "*.zsh", "*.sh", "*.zsh-theme"]

/-- Default templates for each shell, as an insertion-ordered association list
(`Shell::default_templates`, src/lock/mod.rs lines 183-202; `Template::from(s)` has
`each = false`, and `.each(true)` sets the flag). -/
def Shell.default_templates : Shell → List (String × Template)
  | .bash =>
      [("PATH", { value := "export PATH=\"\x7b\x7b dir \x7d\x7d:$PATH\"", each := false }),
       ("source", { value := "source \"\x7b\x7b file \x7d\x7d\"", each := true })]
  | .zsh =>
      [("PATH", { value := "export PATH=\"\x7b\x7b dir \x7d\x7d:$PATH\"", each := false }),
       ("path", { value := "path=( \"\x7b\x7b dir \x7d\x7d\" $path )", each := false }),
       ("fpath", { value := "fpath=( \"\x7b\x7b dir \x7d\x7d\" $fpath )", each := false }),
       ("source", { value := "source \"\x7b\x7b file \x7d\x7d\"", each := true })]

/-- Default template names to apply; note that unlike the other defaults this takes
no shell parameter (`Shell::default_apply`, src/lock/mod.rs lines 205-208). -/
def Shell.default_apply : List String := ["source"]

/-- Models `indexmap`'s `IndexMap::insert` on an association list with distinct keys:
an existing key keeps its position and gets the new value, a new key is appended. -/
def ixInsert {K V : Type} [DecidableEq K] : List (K × V) → K → V → List (K × V)
  | [], k, v => [(k, v)]
  | (k', v') :: rest, k, v =>
      if k' = k then (k, v) :: rest else (k', v') :: ixInsert rest k v

/-- Models `map.entry(key).or_insert_with(Vec::new).push(item)` on an association
list: an existing key keeps its position and its vector grows at the back, a new key
is appended with a singleton vector. -/
def ixPush {K V : Type} [DecidableEq K] : List (K × List V) → K → V → List (K × List V)
  | [], k, v => [(k, [v])]
  | (k', vs) :: rest, k, v =>
      if k' = k then (k', vs ++ [v]) :: rest else (k', vs) :: ixPush rest k v

/-- The effective template map: shell defaults, then user templates inserted or
overwritten by name (src/lock/mod.rs lines 49-55). -/
def mergeTemplates (shell : Shell) (user : List (String × Template)) :
    List (String × Template) :=
  user.foldl (fun m nt => ixInsert m nt.1 nt.2) shell.default_templates

/-- Partition of the enumerated plugins into external plugins and inline plugins,
each retaining its original index; inline plugins are converted to locked plugins at
partition time (src/lock/mod.rs lines 57-65). -/
def partitionPlugins :
    List (Nat × Plugin) → List (Nat × ExternalPlugin) × List (Nat × LockedPlugin)
  | [] => ([], [])
  | (i, Plugin.external p) :: rest =>
      let r := partitionPlugins rest
      ((i, p) :: r.1, r.2)
  | (i, Plugin.inline p) :: rest =>
      let r := partitionPlugins rest
      (r.1, (i, LockedPlugin.inline p) :: r.2)

/-- The map of unique `Source` to the indexed plugins that declare it
(src/lock/mod.rs lines 67-73). -/
def groupBySource (externals : List (Nat × ExternalPlugin)) :
    List (Source × List (Nat × ExternalPlugin)) :=
  externals.foldl (fun m ip => ixPush m ip.2.source ip) []

/-- One parallel task of the install stage: install the group's source; on failure
the whole group becomes one context-tagged error, on success each plugin of the group
is locked sequentially and paired with its original index (src/lock/mod.rs lines
88-104). -/
def installSource (sl : SourceLock) (pl : PluginLock) (ctx : LockContext)
    (templates : List (String × Template)) («matches» apply : List String)
    (entry : Source × List (Nat × ExternalPlugin)) :
    Except String (List (Nat × Except String LockedExternalPlugin)) :=
  match withCtx ("failed to install source `" ++ entry.1.toStr ++ "`")
      (sl ctx entry.1) with
  | .error e => .error e
  | .ok src =>
      .ok (entry.2.map fun ip =>
        (ip.1, withCtx ("failed to install plugin `" ++ ip.2.name ++ "`")
          (pl ctx templates src «matches» apply ip.2)))

/-- First gather stage: split the per-source results into the successful groups (in
order) and the source-install errors (in order) (src/lock/mod.rs lines 109-117). -/
def collectSources :
    List (Except String (List (Nat × Except String LockedExternalPlugin))) →
    List (List (Nat × Except String LockedExternalPlugin)) × List String
  | [] => ([], [])
  | .ok g :: rest =>
      let r := collectSources rest
      (g :: r.1, r.2)
  | .error e :: rest =>
      let r := collectSources rest
      (r.1, e :: r.2)

/-- Second gather stage: split the flattened per-plugin results into locked external
plugins (still index-tagged) and the per-plugin errors (src/lock/mod.rs lines
126-134). -/
def collectPlugins :
    List (Nat × Except String LockedExternalPlugin) →
    List (Nat × LockedPlugin) × List String
  | [] => ([], [])
  | (i, .ok p) :: rest =>
      let r := collectPlugins rest
      ((i, LockedPlugin.external p) :: r.1, r.2)
  | (_, .error e) :: rest =>
      let r := collectPlugins rest
      (r.1, e :: r.2)

/-- The body of the lock orchestrator (src/lock/mod.rs lines 40-147): merge the
templates, partition and group the plugins, install each unique source, lock each
plugin, gather errors, merge the inline plugins back in and sort by original index.
The final struct literal is the `Ok(LockedConfig { .. })` at lines 141-146. -/
def lockConfig (sl : SourceLock) (pl : PluginLock) (ctx : LockContext)
    (cfg : Config) : LockedConfig :=
  let templates := mergeTemplates cfg.shell cfg.templates
  let parts := partitionPlugins cfg.plugins.enum
  let map := groupBySource parts.1
  let «matches» := cfg.«matches».getD cfg.shell.default_matches
  let apply := cfg.apply.getD Shell.default_apply
  if map.length = 0 then
    { settings := ctx.settings, templates := templates, errors := [],
      plugins := parts.2.map Prod.snd }
  else
    let results := map.map (installSource sl pl ctx templates «matches» apply)
    let stage1 := collectSources results
    let stage2 := collectPlugins stage1.1.flatten
    let combined := (stage2.1 ++ parts.2).mergeSort fun a b => decide (a.1 ≤ b.1)
    { settings := ctx.settings, templates := templates,
      errors := stage1.2 ++ stage2.2,
      plugins := combined.map Prod.snd }

/-- The public lock entry point: the whole run is wrapped in `Ok` — every
collaborator failure has already been converted into an entry of `errors`
(src/lock/mod.rs lines 40 and 141-147). -/
def config (sl : SourceLock) (pl : PluginLock) (ctx : LockContext) (cfg : Config) :
    Except String LockedConfig :=
  .ok (lockConfig sl pl ctx cfg)

/-- The list of `Source` values handed to the Source Installer during a lock run: one
call per entry of the grouped map (src/lock/mod.rs lines 88-92). -/
def sourceInstallCalls (cfg : Config) : List Source :=
  (groupBySource (partitionPlugins cfg.plugins.enum).1).map Prod.fst

/-- Resolved directory of a locked external plugin: the plugin subdirectory if
present, else the source's installed directory (`LockedExternalPlugin::dir`,
src/lock/mod.rs lines 244-249). -/
def LockedExternalPlugin.dir (p : LockedExternalPlugin) : String :=
  p.plugin_dir.getD p.source_dir

/-- The per-plugin loop of `LockedConfig::verify` (src/lock/mod.rs lines 225-239);
the filesystem is abstracted as the predicate `fs` telling which paths exist. -/
def verifyPlugins (fs : String → Bool) : List LockedPlugin → Bool
  | [] => true
  | LockedPlugin.external p :: rest =>
      if fs p.dir = false then false
      else if p.files.all fs = false then false
      else verifyPlugins fs rest
  | LockedPlugin.inline _ :: rest => verifyPlugins fs rest

/-- Verify that the `LockedConfig` is okay (`LockedConfig::verify`, src/lock/mod.rs
lines 219-242): the recorded settings must equal the context's settings, every locked
external plugin's resolved directory and every one of its files must exist. -/
def LockedConfig.verify (fs : String → Bool) (l : LockedConfig)
    (ctx : LockContext) : Bool :=
  if l.settings ≠ ctx.settings then false
  else verifyPlugins fs l.plugins

/-- The effective template map of a lock run (src/lock/mod.rs lines 49-55). -/
def effTemplates (cfg : Config) : List (String × Template) :=
  mergeTemplates cfg.shell cfg.templates

/-- The effective match patterns of a lock run (src/lock/mod.rs line 75). -/
def effMatches (cfg : Config) : List String :=
  cfg.«matches».getD cfg.shell.default_matches

/-- The effective apply list of a lock run (src/lock/mod.rs line 77). -/
def effApply (cfg : Config) : List String :=
  cfg.apply.getD Shell.default_apply

/-- First-match lookup in an association list (the reference semantics of a map
lookup used by the spec-side merge description). -/
def lookupKey {V : Type} : List (String × V) → String → Option V
  | [], _ => none
  | (k, v) :: rest, n => if k = n then some v else lookupKey rest n

/-- Spec-side template merge, following the spec's words: start from the shell
defaults in their defined order, overwrite an existing name in place, and append
every user template whose name is new, in user order. -/
def specTemplateMerge (shell : Shell) (user : List (String × Template)) :
    List (String × Template) :=
  shell.default_templates.map
      (fun nt => (nt.1, (lookupKey user nt.1).getD nt.2)) ++
    user.filter fun nt => decide (nt.1 ∉ shell.default_templates.map Prod.fst)

/-- Spec-side per-plugin outcome of a lock run: an inline plugin is carried over
unchanged; an external plugin survives iff its source installs and its own lock
succeeds. -/
def specLockOutcome (sl : SourceLock) (pl : PluginLock) (ctx : LockContext)
    (templates : List (String × Template)) («matches» apply : List String) :
    Plugin → Option LockedPlugin
  | Plugin.inline p => some (LockedPlugin.inline p)
  | Plugin.external p =>
      match sl ctx p.source with
      | .error _ => none
      | .ok src =>
          match pl ctx templates src «matches» apply p with
          | .error _ => none
          | .ok lp => some (LockedPlugin.external lp)

/-- The external plugins of a plugin list, in declaration order. -/
def externalsOf (ps : List Plugin) : List ExternalPlugin :=
  ps.filterMap fun p =>
    match p with
    | .external e => some e
    | .inline _ => none

/-- Untagged grouping of external plugins by source, mirroring `groupBySource`
without the index tags. -/
def groupSrcU (es : List ExternalPlugin) : List (Source × List ExternalPlugin) :=
  es.foldl (fun m p => ixPush m p.source p) []

/-- Spec-side source-install errors of a lock run: one context-tagged error per
unique source whose install fails, in first-declaration order of the sources. -/
def sourceErrorsSpec (sl : SourceLock) (ctx : LockContext)
    (es : List ExternalPlugin) : List String :=
  (groupSrcU es).filterMap fun e =>
    match sl ctx e.1 with
    | .error err =>
        some ("failed to install source `" ++ e.1.toStr ++ "`: " ++ err)
    | .ok _ => none

/-- Spec-side per-plugin lock errors of a lock run: one context-tagged error per
plugin whose source installed but whose own lock fails, in group-major order. -/
def pluginErrorsSpec (sl : SourceLock) (pl : PluginLock) (ctx : LockContext)
    (templates : List (String × Template)) («matches» apply : List String)
    (es : List ExternalPlugin) : List String :=
  ((groupSrcU es).map Prod.snd).flatten.filterMap fun p =>
    match sl ctx p.source with
    | .error _ => none
    | .ok src =>
        match pl ctx templates src «matches» apply p with
        | .error err =>
            some ("failed to install plugin `" ++ p.name ++ "`: " ++ err)
        | .ok _ => none

/-- Index-tagged spec-side outcome: the outcome of the plugin, keeping its tag. -/
def specOutcomeTagged (sl : SourceLock) (pl : PluginLock) (ctx : LockContext)
    (templates : List (String × Template)) («matches» apply : List String)
    (ip : Nat × Plugin) : Option (Nat × LockedPlugin) :=
  (specLockOutcome sl pl ctx templates «matches» apply ip.2).map fun lp => (ip.1, lp)

/-- Elementwise view of the install stage on one tagged external plugin: `none` when
its source fails to install, otherwise its context-wrapped plugin-lock result. -/
def procPluginE (sl : SourceLock) (pl : PluginLock) (ctx : LockContext)
    (templates : List (String × Template)) («matches» apply : List String)
    (ip : Nat × ExternalPlugin) : Option (Nat × Except String LockedExternalPlugin) :=
  match sl ctx ip.2.source with
  | .error _ => none
  | .ok src =>
      some (ip.1, withCtx ("failed to install plugin `" ++ ip.2.name ++ "`")
        (pl ctx templates src «matches» apply ip.2))

/-- The context-tagged error produced for a source whose install fails. -/
def srcErrF (sl : SourceLock) (ctx : LockContext) (s : Source) : Option String :=
  match sl ctx s with
  | .error e => some ("failed to install source `" ++ s.toStr ++ "`: " ++ e)
  | .ok _ => none

/-- Success half of the second gather stage, elementwise. -/
def okPluginF (ie : Nat × Except String LockedExternalPlugin) :
    Option (Nat × LockedPlugin) :=
  match ie.2 with
  | .ok p => some (ie.1, LockedPlugin.external p)
  | .error _ => none

/-- Error half of the second gather stage, elementwise. -/
def errPluginF (ie : Nat × Except String LockedExternalPlugin) : Option String :=
  match ie.2 with
  | .ok _ => none
  | .error e => some e

instance : IsAntisymm (Nat × LockedPlugin) fun x y => x.1 < y.1 :=
  ⟨fun _ _ h1 h2 => absurd h2 (Nat.lt_asymm h1)⟩

/-- The context-tagged error produced for a plugin whose source installed but whose
own lock fails. -/
def plugErrF (sl : SourceLock) (pl : PluginLock) (ctx : LockContext)
    (t : List (String × Template)) (m a : List String) (p : ExternalPlugin) :
    Option String :=
  match sl ctx p.source with
  | .error _ => none
  | .ok src =>
      match pl ctx t src m a p with
      | .error err =>
          some ("failed to install plugin `" ++ p.name ++ "`: " ++ err)
      | .ok _ => none

/-- Concrete settings used by the closed witness theorems. -/
def settingsW : Settings := ⟨"v", "h", "c", "d", "cf", "lf", "cl", "dl"⟩

/-- Concrete context used by the closed witness theorems. -/
def ctxW : LockContext := ⟨settingsW⟩

/-- A source installer that fails on every call. -/
def slFail : SourceLock := fun _ _ => Except.error "e"

/-- A plugin locker that fails on every call. -/
def plFail : PluginLock := fun _ _ _ _ _ _ => Except.error "e"

/-- A config with a single inline plugin, used by the closed witness theorems. -/
def cfgInlineW : Config := ⟨Shell.zsh, none, none, [], [Plugin.inline ⟨"i", "echo"⟩]⟩

/-- The empty config, used by the closed witness theorems. -/
def cfgEmptyW : Config := ⟨Shell.zsh, none, none, [], []⟩

/-! ### Lock persistence (modelled from the spec)

`lock/file.rs` (`LockedConfig::to_path`) and the serde instances are not in the
sample; only `from_path` and the round-trip unit test are.  The stable text
representation is modelled from the spec: the eight settings keys in the order
`version, home, config_dir, data_dir, config_file, lock_file, clone_dir,
download_dir`, then `plugins` (each record tagged by kind), then an
empty-but-present `[templates]` section; `errors` is not persisted.  Serialization
is a function to a character sequence and deserialization is a total parser over
it. -/

/-- A string that can be quoted verbatim: it contains no quote and no newline. -/
def cleanStr (s : String) : Bool :=
  !(s.data.contains '"') && !(s.data.contains '\n')

/-- Cleanliness of an optional string. -/
def cleanOpt : Option String → Bool
  | none => true
  | some s => cleanStr s

/-- Well-formedness of a locked plugin for persistence. -/
def lockedPluginWF : LockedPlugin → Bool
  | .external p =>
      cleanStr p.name && cleanStr p.source_dir && cleanOpt p.plugin_dir &&
        p.files.all cleanStr && p.apply.all cleanStr
  | .inline p => cleanStr p.name && cleanStr p.raw

/-- Well-formedness of a template entry for persistence. -/
def templateEntryWF (nt : String × Template) : Bool :=
  cleanStr nt.1 && cleanStr nt.2.value

/-- Modelled from the spec: a well-formed `LockedConfig` (quotable strings, and no
transient errors — the error list is not part of the persisted schema). -/
def lockedConfigWF (l : LockedConfig) : Bool :=
  cleanStr l.settings.version && cleanStr l.settings.home &&
    cleanStr l.settings.config_dir && cleanStr l.settings.data_dir &&
    cleanStr l.settings.config_file && cleanStr l.settings.lock_file &&
    cleanStr l.settings.clone_dir && cleanStr l.settings.download_dir &&
    l.plugins.all lockedPluginWF && l.templates.all templateEntryWF &&
    decide (l.errors = [])

/-- Quoted string encoding. -/
def encStr (s : String) : List Char := '"' :: (s.data ++ ['"'])

/-- One `key = "value"` line. -/
def encField (key v : String) : List Char :=
  key.data ++ (" = ".data ++ (encStr v ++ ['\n']))

/-- Optional string encoding. -/
def encOptStr : Option String → List Char
  | none => "none".data
  | some s => encStr s

/-- Tail of a bracketed string list after the first element. -/
def encStrListTail : List String → List Char
  | [] => [']']
  | s :: rest => ',' :: (' ' :: (encStr s ++ encStrListTail rest))

/-- Bracketed string list encoding. -/
def encStrList : List String → List Char
  | [] => ['[', ']']
  | s :: rest => '[' :: (encStr s ++ encStrListTail rest)

/-- One plugin record line, tagged by kind. -/
def encPlugin : LockedPlugin → List Char
  | .external p =>
      "external name = ".data ++ (encStr p.name ++
        (" source_dir = ".data ++ (encStr p.source_dir ++
          (" plugin_dir = ".data ++ (encOptStr p.plugin_dir ++
            (" files = ".data ++ (encStrList p.files ++
              (" apply = ".data ++ (encStrList p.apply ++ ['\n'])))))))))
  | .inline p =>
      "inline name = ".data ++ (encStr p.name ++
        (" raw = ".data ++ (encStr p.raw ++ ['\n'])))

/-- The `plugins` entry: `[]` inline when empty, one record line per plugin
otherwise. -/
def encPlugins : List LockedPlugin → List Char
  | [] => "plugins = []\n".data
  | p :: rest =>
      "plugins = [\n".data ++
        (encPlugin p ++ (((rest.map encPlugin).flatten) ++ (']' :: ['\n'])))

/-- One template line of the `[templates]` section. -/
def encTemplate (nt : String × Template) : List Char :=
  encStr nt.1 ++ (" = ".data ++ (encStr nt.2.value ++
    (" each = ".data ++
      ((if nt.2.each then "true".data else "false".data) ++ ['\n']))))

/-- The full stable text representation of a `LockedConfig`. -/
def encLockedConfig (l : LockedConfig) : List Char :=
  encField "version" l.settings.version ++
    (encField "home" l.settings.home ++
      (encField "config_dir" l.settings.config_dir ++
        (encField "data_dir" l.settings.data_dir ++
          (encField "config_file" l.settings.config_file ++
            (encField "lock_file" l.settings.lock_file ++
              (encField "clone_dir" l.settings.clone_dir ++
                (encField "download_dir" l.settings.download_dir ++
                  (encPlugins l.plugins ++
                    ('\n' :: ("[templates]\n".data ++
                      (l.templates.map encTemplate).flatten))))))))))

/-- Modelled from the spec: serialize a `LockedConfig` to its stable text
representation (`LockedConfig::to_path` minus the file write). -/
def LockedConfig.to_str (l : LockedConfig) : String := ⟨encLockedConfig l⟩

/-- Consume an exact expected token from the input. -/
def expectL : List Char → List Char → Option (List Char)
  | [], input => some input
  | _ :: _, [] => none
  | p :: ps, c :: cs => if c = p then expectL ps cs else none

/-- Split the input at the first quote character. -/
def splitAtQuote : List Char → Option (List Char × List Char)
  | [] => none
  | c :: cs =>
      if c = '"' then some ([], cs)
      else
        match splitAtQuote cs with
        | some (a, b) => some (c :: a, b)
        | none => none

/-- Parse a quoted string. -/
def parseQuoted : List Char → Option (String × List Char)
  | '"' :: rest =>
      match splitAtQuote rest with
      | some (a, b) => some (⟨a⟩, b)
      | none => none
  | _ => none

/-- Parse one `key = "value"` line. -/
def parseField (key : String) (input : List Char) : Option (String × List Char) :=
  match expectL (key.data ++ " = ".data) input with
  | none => none
  | some r =>
      match parseQuoted r with
      | none => none
      | some (v, r2) =>
          match r2 with
          | '\n' :: r3 => some (v, r3)
          | _ => none

/-- Parse an optional string (`none` or a quoted string). -/
def parseOptStr (input : List Char) : Option (Option String × List Char) :=
  match input with
  | '"' :: _ =>
      match parseQuoted input with
      | some (v, r) => some (some v, r)
      | none => none
  | _ =>
      match expectL "none".data input with
      | some r => some (none, r)
      | none => none

/-- Parse the tail of a bracketed string list. -/
def parseStrListTail (fuel : Nat) (input : List Char) :
    Option (List String × List Char) :=
  match input with
  | ']' :: r => some ([], r)
  | ',' :: ' ' :: r =>
      match fuel with
      | 0 => none
      | f + 1 =>
          match parseQuoted r with
          | some (v, r2) =>
              match parseStrListTail f r2 with
              | some (vs, r3) => some (v :: vs, r3)
              | none => none
          | none => none
  | _ => none

/-- Parse a bracketed string list. -/
def parseStrList (fuel : Nat) (input : List Char) :
    Option (List String × List Char) :=
  match input with
  | '[' :: ']' :: r => some ([], r)
  | '[' :: r =>
      match parseQuoted r with
      | some (v, r2) =>
          match parseStrListTail fuel r2 with
          | some (vs, r3) => some (v :: vs, r3)
          | none => none
      | none => none
  | _ => none

/-- Parse one plugin record line. -/
def parsePlugin (fuel : Nat) (input : List Char) :
    Option (LockedPlugin × List Char) :=
  match input with
  | 'e' :: r0 =>
      match expectL "xternal name = ".data r0 with
      | none => none
      | some r =>
          match parseQuoted r with
          | none => none
          | some (name, r1) =>
              match expectL " source_dir = ".data r1 with
              | none => none
              | some r2 =>
                  match parseQuoted r2 with
                  | none => none
                  | some (sd, r3) =>
                      match expectL " plugin_dir = ".data r3 with
                      | none => none
                      | some r4 =>
                          match parseOptStr r4 with
                          | none => none
                          | some (pd, r5) =>
                              match expectL " files = ".data r5 with
                              | none => none
                              | some r6 =>
                                  match parseStrList fuel r6 with
                                  | none => none
                                  | some (files, r7) =>
                                      match expectL " apply = ".data r7 with
                                      | none => none
                                      | some r8 =>
                                          match parseStrList fuel r8 with
                                          | none => none
                                          | some (ap, r9) =>
                                              match r9 with
                                              | '\n' :: r10 =>
                                                  some (LockedPlugin.external
                                                    ⟨name, sd, pd, files, ap⟩, r10)
                                              | _ => none
  | 'i' :: r0 =>
      match expectL "nline name = ".data r0 with
      | none => none
      | some r =>
          match parseQuoted r with
          | none => none
          | some (name, r1) =>
              match expectL " raw = ".data r1 with
              | none => none
              | some r2 =>
                  match parseQuoted r2 with
                  | none => none
                  | some (raw, r3) =>
                      match r3 with
                      | '\n' :: r4 =>
                          some (LockedPlugin.inline ⟨name, raw⟩, r4)
                      | _ => none
  | _ => none

/-- Parse the plugin record lines up to the closing bracket line. -/
def parsePluginsTail (fuel : Nat) (input : List Char) :
    Option (List LockedPlugin × List Char) :=
  match input with
  | ']' :: '\n' :: r => some ([], r)
  | input' =>
      match fuel with
      | 0 => none
      | f + 1 =>
          match parsePlugin f input' with
          | some (p, r) =>
              match parsePluginsTail f r with
              | some (ps, r2) => some (p :: ps, r2)
              | none => none
          | none => none

/-- Parse the `plugins` entry. -/
def parsePlugins (fuel : Nat) (input : List Char) :
    Option (List LockedPlugin × List Char) :=
  match expectL "plugins = [".data input with
  | none => none
  | some r =>
      match r with
      | ']' :: '\n' :: r2 => some ([], r2)
      | '\n' :: r2 => parsePluginsTail fuel r2
      | _ => none

/-- Parse the template lines until the end of the input. -/
def parseTemplates (fuel : Nat) (input : List Char) :
    Option (List (String × Template)) :=
  match input with
  | [] => some []
  | input' =>
    match fuel with
    | 0 => none
    | f + 1 =>
      match parseQuoted input' with
      | none => none
      | some (name, r1) =>
          match expectL " = ".data r1 with
          | none => none
          | some r2 =>
              match parseQuoted r2 with
              | none => none
              | some (v, r3) =>
                  match expectL " each = ".data r3 with
                  | none => none
                  | some r4 =>
                      match r4 with
                      | 't' :: r5 =>
                          match expectL "rue\n".data r5 with
                          | none => none
                          | some r6 =>
                              match parseTemplates f r6 with
                              | some ts => some ((name, ⟨v, true⟩) :: ts)
                              | none => none
                      | 'f' :: r5 =>
                          match expectL "alse\n".data r5 with
                          | none => none
                          | some r6 =>
                              match parseTemplates f r6 with
                              | some ts => some ((name, ⟨v, false⟩) :: ts)
                              | none => none
                      | _ => none

/-- Parse a full `LockedConfig` from its text representation. -/
def parseLockedConfig (s : List Char) : Option LockedConfig :=
  match parseField "version" s with
  | none => none
  | some (version, r1) =>
      match parseField "home" r1 with
      | none => none
      | some (home, r2) =>
          match parseField "config_dir" r2 with
          | none => none
          | some (config_dir, r3) =>
              match parseField "data_dir" r3 with
              | none => none
              | some (data_dir, r4) =>
                  match parseField "config_file" r4 with
                  | none => none
                  | some (config_file, r5) =>
                      match parseField "lock_file" r5 with
                      | none => none
                      | some (lock_file, r6) =>
                          match parseField "clone_dir" r6 with
                          | none => none
                          | some (clone_dir, r7) =>
                              match parseField "download_dir" r7 with
                              | none => none
                              | some (download_dir, r8) =>
                                  match parsePlugins s.length r8 with
                                  | none => none
                                  | some (plugins, r9) =>
                                      match expectL "\n[templates]\n".data r9 with
                                      | none => none
                                      | some r10 =>
                                          match parseTemplates s.length r10 with
                                          | none => none
                                          | some templates =>
                                              some ⟨⟨version, home, config_dir,
                                                data_dir, config_file, lock_file,
                                                clone_dir, download_dir⟩,
                                                templates, [], plugins⟩

/-- Modelled from the spec: deserialize a `LockedConfig` from its text
representation (`from_path` minus the file read); fails with a deserialization
error when the content does not match the schema. -/
def from_str (s : String) : Except String LockedConfig :=
  match parseLockedConfig s.data with
  | some l => Except.ok l
  | none => Except.error "failed to deserialize locked config"

/-- Fuel needed to parse one plugin record. -/
def pluginFuelNeed : LockedPlugin → Nat
  | .external p => max p.files.length p.apply.length
  | .inline _ => 0

/-- Fuel needed to parse a plugin record list. -/
def pluginsFuelNeed : List LockedPlugin → Nat
  | [] => 0
  | p :: rest => max (pluginFuelNeed p) (pluginsFuelNeed rest) + 1

/-- A config whose two external plugins share one source, used by the closed
witness theorems. -/
def cfgShareW : Config :=
  ⟨Shell.zsh, none, none, [],
    [Plugin.external ⟨"a", Source.remote "u", none, none, none⟩,
     Plugin.external ⟨"b", Source.remote "u", none, none, none⟩]⟩

/-- A concrete locked external plugin, used by the closed witness theorems. -/
def lepW : LockedExternalPlugin := ⟨"p", "sd", none, ["f1"], ["source"]⟩

/-- A concrete locked config, used by the closed witness theorems. -/
def lcW : LockedConfig := ⟨settingsW, [], [], [LockedPlugin.external lepW]⟩

/-- A concrete filesystem-existence predicate, used by the closed witness
theorems. -/
def fsW : String → Bool := fun s => decide (s = "sd") || decide (s = "f1")

/-- A concrete locked config exercising the persistence round trip. -/
def lcRoundW : LockedConfig :=
  ⟨settingsW, [("source", ⟨"sv", true⟩)], [],
    [LockedPlugin.external ⟨"p", "sd", none, ["f"], ["source"]⟩,
     LockedPlugin.inline ⟨"q", "echo hi"⟩]⟩

/-! ### Helper lemmas -/


theorem lookupKey_eq_none {V : Type} {l : List (String × V)} {k : String}
    (h : k ∉ l.map Prod.fst) : lookupKey l k = none := by
  induction l with
  | nil => rfl
  | cons hd tl ih =>
      simp only [List.map_cons, List.mem_cons] at h
      push_neg at h
      have hne : ¬ hd.1 = k := fun hh => h.1 hh.symm
      simp only [lookupKey, if_neg hne, ih h.2]

theorem map_replace_of_not_mem {V : Type} {l : List (String × V)} {k : String}
    (v : V) (h : k ∉ l.map Prod.fst) :
    l.map (fun nt => if nt.1 = k then (k, v) else nt) = l := by
  induction l with
  | nil => rfl
  | cons hd tl ih =>
      simp only [List.map_cons, List.mem_cons] at h
      push_neg at h
      have hne : ¬ hd.1 = k := fun hh => h.1 hh.symm
      simp only [List.map_cons, if_neg hne, ih h.2]

theorem ixInsert_of_mem {V : Type} {l : List (String × V)} {k : String} (v : V)
    (hnd : (l.map Prod.fst).Nodup) (h : k ∈ l.map Prod.fst) :
    ixInsert l k v = l.map fun nt => if nt.1 = k then (k, v) else nt := by
  induction l with
  | nil => simp at h
  | cons hd tl ih =>
      simp only [List.map_cons, List.nodup_cons] at hnd
      simp only [List.map_cons, List.mem_cons] at h
      by_cases hk : hd.1 = k
      · simp only [ixInsert, if_pos hk, List.map_cons]
        rw [map_replace_of_not_mem v (hk ▸ hnd.1)]
      · simp only [ixInsert, if_neg hk, List.map_cons, if_neg hk]
        rcases h with h | h
        · exact absurd h.symm hk
        · rw [ih hnd.2 h]

theorem ixInsert_of_not_mem {V : Type} {l : List (String × V)} {k : String} (v : V)
    (h : k ∉ l.map Prod.fst) : ixInsert l k v = l ++ [(k, v)] := by
  induction l with
  | nil => rfl
  | cons hd tl ih =>
      simp only [List.map_cons, List.mem_cons] at h
      push_neg at h
      have hne : ¬ hd.1 = k := fun hh => h.1 hh.symm
      simp only [ixInsert, if_neg hne, ih h.2, List.cons_append]

theorem foldl_ixInsert_eq {base user : List (String × Template)}
    (hb : (base.map Prod.fst).Nodup) (hu : (user.map Prod.fst).Nodup) :
    user.foldl (fun m nt => ixInsert m nt.1 nt.2) base =
      base.map (fun nt => (nt.1, (lookupKey user nt.1).getD nt.2)) ++
        user.filter fun nt => decide (nt.1 ∉ base.map Prod.fst) := by
  induction user generalizing base with
  | nil =>
      simp [lookupKey]
  | cons hd tl ih =>
      obtain ⟨k, v⟩ := hd
      simp only [List.map_cons, List.nodup_cons] at hu
      have hkl : lookupKey tl k = none := lookupKey_eq_none hu.1
      by_cases hk : k ∈ base.map Prod.fst
      · have hbase' : ixInsert base k v =
            base.map fun nt => if nt.1 = k then (k, v) else nt :=
          ixInsert_of_mem v hb hk
        have hkeys : (ixInsert base k v).map Prod.fst = base.map Prod.fst := by
          rw [hbase', List.map_map]
          refine List.map_congr_left fun nt _ => ?_
          by_cases hh : nt.1 = k
          · simp [Function.comp, if_pos hh, hh]
          · simp [Function.comp, if_neg hh]
        have hnd' : ((ixInsert base k v).map Prod.fst).Nodup := by
          rw [hkeys]; exact hb
        rw [List.foldl_cons, ih hnd' hu.2]
        have hfil : (fun nt : String × Template =>
            decide (nt.1 ∉ (ixInsert base k v).map Prod.fst)) =
            fun nt => decide (nt.1 ∉ base.map Prod.fst) := by
          funext nt; rw [hkeys]
        have hmap : base.map
            ((fun nt => (nt.1, (lookupKey tl nt.1).getD nt.2)) ∘
              fun nt => if nt.1 = k then (k, v) else nt) =
            base.map fun nt =>
              (nt.1, (lookupKey ((k, v) :: tl) nt.1).getD nt.2) := by
          refine List.map_congr_left fun nt _ => ?_
          by_cases hh : nt.1 = k
          · simp only [Function.comp, if_pos hh, lookupKey, hh, if_pos rfl]
            simp [hkl]
          · simp only [Function.comp, if_neg hh, lookupKey]
            rw [if_neg fun hc => hh hc.symm]
        rw [hfil, hbase', List.map_map, hmap, List.filter_cons]
        simp [hk]
      · have hbase' : ixInsert base k v = base ++ [(k, v)] :=
          ixInsert_of_not_mem v hk
        have hnd' : ((base ++ [(k, v)]).map Prod.fst).Nodup := by
          simp only [List.map_append, List.nodup_append]
          refine ⟨hb, List.nodup_singleton _, ?_⟩
          intro x hx hx'
          simp only [List.map_cons, List.map_nil, List.mem_singleton] at hx'
          exact hk (hx' ▸ hx)
        rw [List.foldl_cons, hbase', ih hnd' hu.2]
        simp only [List.map_append, List.filter_append]
        have h1 : base.map (fun nt => (nt.1, (lookupKey tl nt.1).getD nt.2)) =
            base.map fun nt =>
              (nt.1, (lookupKey ((k, v) :: tl) nt.1).getD nt.2) := by
          refine List.map_congr_left fun nt hnt => ?_
          have hne : nt.1 ≠ k := by
            intro hh
            exact hk (hh ▸ List.mem_map_of_mem Prod.fst hnt)
          simp only [lookupKey]
          rw [if_neg fun hc => hne hc.symm]
        have h2 : ([(k, v)] : List (String × Template)).map
            (fun nt => (nt.1, (lookupKey tl nt.1).getD nt.2)) = [(k, v)] := by
          simp [hkl]
        have h3 : List.filter
            (fun nt =>
              decide (nt.1 ∉ base.map Prod.fst ++ [(k, v)].map Prod.fst)) tl =
            List.filter (fun nt => decide (nt.1 ∉ base.map Prod.fst)) tl := by
          refine List.filter_congr fun nt hnt => ?_
          have hne : nt.1 ≠ k := by
            intro hh
            exact hu.1 (hh ▸ List.mem_map_of_mem Prod.fst hnt)
          simp only [List.map_cons, List.map_nil,
            List.mem_append, List.mem_singleton, decide_eq_decide]
          constructor
          · intro hcon hmem; exact hcon (Or.inl hmem)
          · intro hcon hmem
            rcases hmem with hmem | hmem
            · exact hcon hmem
            · exact hne hmem
        rw [h1, h2, h3, List.filter_cons]
        simp [hk]

theorem flatten_ixPush {K V : Type} [DecidableEq K] (m : List (K × List V))
    (k : K) (v : V) :
    (((ixPush m k v).map Prod.snd).flatten).Perm
      ((m.map Prod.snd).flatten ++ [v]) := by
  induction m with
  | nil => simp [ixPush]
  | cons hd tl ih =>
      obtain ⟨k', vs⟩ := hd
      by_cases hk : k' = k
      · simp only [ixPush, if_pos hk, List.map_cons, List.flatten_cons]
        rw [List.append_assoc, List.append_assoc]
        exact (@List.perm_append_comm _ [v] _).append_left vs
      · simp only [ixPush, if_neg hk, List.map_cons, List.flatten_cons]
        rw [List.append_assoc]
        exact ih.append_left vs

theorem flatten_foldl_ixPush {K V : Type} [DecidableEq K] (f : V → K) :
    ∀ (l : List V) (acc : List (K × List V)),
      ((l.foldl (fun m x => ixPush m (f x) x) acc).map Prod.snd).flatten.Perm
        ((acc.map Prod.snd).flatten ++ l)
  | [], acc => by simp
  | x :: rest, acc => by
      have step := flatten_ixPush acc (f x) x
      have ihp := flatten_foldl_ixPush f rest (ixPush acc (f x) x)
      refine (List.foldl_cons _ _ ▸ ihp).trans ?_
      have : ((((ixPush acc (f x) x).map Prod.snd).flatten) ++ rest).Perm
          (((acc.map Prod.snd).flatten ++ [x]) ++ rest) := step.append_right rest
      refine this.trans ?_
      rw [List.append_assoc]
      exact List.Perm.refl _

/-- Every member of every group of an `ixPush`-built map has the group's key. -/
def GroupedBy {K V : Type} (f : V → K) (m : List (K × List V)) : Prop :=
  ∀ e ∈ m, ∀ x ∈ e.2, f x = e.1

theorem groupedBy_ixPush {K V : Type} [DecidableEq K] {f : V → K}
    {m : List (K × List V)} (hm : GroupedBy f m) {k : K} {v : V} (hv : f v = k) :
    GroupedBy f (ixPush m k v) := by
  induction m with
  | nil =>
      intro e he x hx
      simp only [ixPush, List.mem_singleton] at he
      subst he
      simp only [List.mem_singleton] at hx
      subst hx
      exact hv
  | cons hd tl ih =>
      obtain ⟨k', vs⟩ := hd
      have hhd : ∀ x ∈ vs, f x = k' := fun x hx => hm (k', vs) (by simp) x hx
      have htl : GroupedBy f tl := fun e he x hx => hm e (by simp [he]) x hx
      by_cases hk : k' = k
      · intro e he x hx
        simp only [ixPush, if_pos hk, List.mem_cons] at he
        rcases he with he | he
        · subst he
          simp only [List.mem_append, List.mem_singleton] at hx
          rcases hx with hx | hx
          · exact hhd x hx
          · subst hx; rw [hv, hk]
        · exact htl e he x hx
      · intro e he x hx
        simp only [ixPush, if_neg hk, List.mem_cons] at he
        rcases he with he | he
        · subst he; exact hhd x hx
        · exact ih htl e he x hx

theorem groupedBy_foldl_ixPush {K V : Type} [DecidableEq K] (f : V → K) :
    ∀ (l : List V) (acc : List (K × List V)), GroupedBy f acc →
      GroupedBy f (l.foldl (fun m x => ixPush m (f x) x) acc)
  | [], _, hacc => hacc
  | x :: rest, acc, hacc => by
      rw [List.foldl_cons]
      exact groupedBy_foldl_ixPush f rest _ (groupedBy_ixPush hacc rfl)

theorem keys_ixPush {K V : Type} [DecidableEq K] (m : List (K × List V)) (k : K)
    (v : V) :
    (ixPush m k v).map Prod.fst =
      if k ∈ m.map Prod.fst then m.map Prod.fst else m.map Prod.fst ++ [k] := by
  induction m with
  | nil => simp [ixPush]
  | cons hd tl ih =>
      obtain ⟨k', vs⟩ := hd
      by_cases hk : k' = k
      · subst hk
        simp [ixPush]
      · have hne : ¬ k = k' := fun hh => hk hh.symm
        simp only [ixPush, if_neg hk, List.map_cons, ih, List.mem_cons]
        by_cases hmem : k ∈ tl.map Prod.fst
        · simp [hmem, hne]
        · simp [hmem, hne]

theorem keys_nodup_ixPush {K V : Type} [DecidableEq K] {m : List (K × List V)}
    (hm : ((m.map Prod.fst)).Nodup) (k : K) (v : V) :
    ((ixPush m k v).map Prod.fst).Nodup := by
  rw [keys_ixPush]
  by_cases hmem : k ∈ m.map Prod.fst
  · simpa [hmem] using hm
  · rw [if_neg hmem]
    simp only [List.nodup_append, List.nodup_singleton]
    refine ⟨hm, trivial, ?_⟩
    intro x hx hx'
    simp only [List.mem_singleton] at hx'
    exact hmem (hx' ▸ hx)

theorem keys_nodup_foldl_ixPush {K V : Type} [DecidableEq K] (f : V → K) :
    ∀ (l : List V) (acc : List (K × List V)), ((acc.map Prod.fst)).Nodup →
      (((l.foldl (fun m x => ixPush m (f x) x) acc).map Prod.fst)).Nodup
  | [], _, hacc => hacc
  | x :: rest, acc, hacc => by
      rw [List.foldl_cons]
      exact keys_nodup_foldl_ixPush f rest _ (keys_nodup_ixPush hacc (f x) x)

theorem mem_keys_foldl_ixPush {K V : Type} [DecidableEq K] (f : V → K) (s : K) :
    ∀ (l : List V) (acc : List (K × List V)),
      (s ∈ (l.foldl (fun m x => ixPush m (f x) x) acc).map Prod.fst ↔
        s ∈ acc.map Prod.fst ∨ ∃ x ∈ l, f x = s)
  | [], acc => by simp
  | x :: rest, acc => by
      rw [List.foldl_cons, mem_keys_foldl_ixPush f s rest (ixPush acc (f x) x),
        keys_ixPush]
      by_cases hmem : f x ∈ acc.map Prod.fst
      · simp only [if_pos hmem, List.mem_cons]
        constructor
        · rintro (h | h)
          · exact Or.inl h
          · obtain ⟨y, hy, hys⟩ := h
            exact Or.inr ⟨y, Or.inr hy, hys⟩
        · rintro (h | ⟨y, hy, hys⟩)
          · exact Or.inl h
          · rcases hy with hy | hy
            · subst hy; exact Or.inl (hys ▸ hmem)
            · exact Or.inr ⟨y, hy, hys⟩
      · simp only [if_neg hmem, List.mem_append, List.mem_cons,
          List.not_mem_nil, or_false]
        constructor
        · rintro ((h | h) | h)
          · exact Or.inl h
          · exact Or.inr ⟨x, Or.inl rfl, h.symm⟩
          · obtain ⟨y, hy, hys⟩ := h
            exact Or.inr ⟨y, Or.inr hy, hys⟩
        · rintro (h | ⟨y, hy, hys⟩)
          · exact Or.inl (Or.inl h)
          · rcases hy with hy | hy
            · subst hy; exact Or.inl (Or.inr hys.symm)
            · exact Or.inr ⟨y, hy, hys⟩

theorem filterMap_eq_map_of {α β : Type} {f : α → Option β} {g : α → β}
    {l : List α} (h : ∀ x ∈ l, f x = some (g x)) : l.filterMap f = l.map g := by
  induction l with
  | nil => rfl
  | cons hd tl ih =>
      rw [List.filterMap_cons, h hd (by simp), List.map_cons,
        ih fun x hx => h x (by simp [hx])]

theorem filterMap_eq_nil_of {α β : Type} {f : α → Option β} {l : List α}
    (h : ∀ x ∈ l, f x = none) : l.filterMap f = [] := by
  induction l with
  | nil => rfl
  | cons hd tl ih =>
      rw [List.filterMap_cons, h hd (by simp), ih fun x hx => h x (by simp [hx])]

theorem collectSources_fst :
    ∀ l : List (Except String (List (Nat × Except String LockedExternalPlugin))),
      (collectSources l).1 = l.filterMap fun r =>
        match r with
        | .ok g => some g
        | .error _ => none
  | [] => rfl
  | .ok g :: rest => by
      simp [collectSources, List.filterMap_cons, collectSources_fst rest]
  | .error e :: rest => by
      simp [collectSources, List.filterMap_cons, collectSources_fst rest]

theorem collectSources_snd :
    ∀ l : List (Except String (List (Nat × Except String LockedExternalPlugin))),
      (collectSources l).2 = l.filterMap fun r =>
        match r with
        | .ok _ => none
        | .error e => some e
  | [] => rfl
  | .ok g :: rest => by
      simp [collectSources, List.filterMap_cons, collectSources_snd rest]
  | .error e :: rest => by
      simp [collectSources, List.filterMap_cons, collectSources_snd rest]

theorem collectPlugins_fst :
    ∀ l : List (Nat × Except String LockedExternalPlugin),
      (collectPlugins l).1 = l.filterMap okPluginF
  | [] => rfl
  | (i, .ok p) :: rest => by
      simp [collectPlugins, List.filterMap_cons, okPluginF,
        collectPlugins_fst rest]
  | (i, .error e) :: rest => by
      simp [collectPlugins, List.filterMap_cons, okPluginF,
        collectPlugins_fst rest]

theorem collectPlugins_snd :
    ∀ l : List (Nat × Except String LockedExternalPlugin),
      (collectPlugins l).2 = l.filterMap errPluginF
  | [] => rfl
  | (i, .ok p) :: rest => by
      simp [collectPlugins, List.filterMap_cons, errPluginF,
        collectPlugins_snd rest]
  | (i, .error e) :: rest => by
      simp [collectPlugins, List.filterMap_cons, errPluginF,
        collectPlugins_snd rest]

theorem collect_install_fst (sl : SourceLock) (pl : PluginLock)
    (ctx : LockContext) (t : List (String × Template)) (m a : List String) :
    ∀ mp : List (Source × List (Nat × ExternalPlugin)),
      GroupedBy (fun ip => ip.2.source) mp →
      (collectSources (mp.map (installSource sl pl ctx t m a))).1.flatten =
        ((mp.map Prod.snd).flatten).filterMap (procPluginE sl pl ctx t m a)
  | [], _ => rfl
  | (s, ps) :: rest, hg => by
      have hps : ∀ ip ∈ ps, ip.2.source = s := fun ip hip =>
        hg (s, ps) (by simp) ip hip
      have hrest : GroupedBy (fun ip => ip.2.source) rest := fun e he x hx =>
        hg e (by simp [he]) x hx
      have ih := collect_install_fst sl pl ctx t m a rest hrest
      rw [List.map_cons, List.map_cons, List.flatten_cons, List.filterMap_append]
      cases hsl : sl ctx s with
      | error e =>
          have hinst : installSource sl pl ctx t m a (s, ps) =
              .error ("failed to install source `" ++ Source.toStr s ++ "`" ++
                ": " ++ e) := by
            simp [installSource, hsl, withCtx]
          rw [hinst]
          have hnil : ps.filterMap (procPluginE sl pl ctx t m a) = [] :=
            filterMap_eq_nil_of fun ip hip => by
              simp [procPluginE, hps ip hip, hsl]
          rw [hnil, List.nil_append]
          exact ih
      | ok src =>
          have hinst : installSource sl pl ctx t m a (s, ps) =
              .ok (ps.map fun ip =>
                (ip.1, withCtx ("failed to install plugin `" ++ ip.2.name ++ "`")
                  (pl ctx t src m a ip.2))) := by
            simp [installSource, hsl, withCtx]
          rw [hinst]
          have hmap : ps.filterMap (procPluginE sl pl ctx t m a) =
              ps.map fun ip =>
                (ip.1, withCtx ("failed to install plugin `" ++ ip.2.name ++ "`")
                  (pl ctx t src m a ip.2)) :=
            filterMap_eq_map_of fun ip hip => by
              simp [procPluginE, hps ip hip, hsl]
          rw [hmap]
          show (collectSources (.ok _ :: _)).1.flatten = _
          rw [show ∀ g gs, (collectSources (.ok g :: gs)).1 = g :: (collectSources gs).1
            from fun g gs => rfl]
          rw [List.flatten_cons, ih]

theorem collect_install_snd (sl : SourceLock) (pl : PluginLock)
    (ctx : LockContext) (t : List (String × Template)) (m a : List String) :
    ∀ mp : List (Source × List (Nat × ExternalPlugin)),
      (collectSources (mp.map (installSource sl pl ctx t m a))).2 =
        (mp.map Prod.fst).filterMap (srcErrF sl ctx)
  | [] => rfl
  | (s, ps) :: rest => by
      have ih := collect_install_snd sl pl ctx t m a rest
      rw [List.map_cons, List.map_cons, List.filterMap_cons]
      cases hsl : sl ctx s with
      | error e =>
          have hinst : installSource sl pl ctx t m a (s, ps) =
              .error ("failed to install source `" ++ Source.toStr s ++ "`" ++
                ": " ++ e) := by
            simp [installSource, hsl, withCtx]
          rw [hinst]
          have hsel : srcErrF sl ctx s =
              some ("failed to install source `" ++ Source.toStr s ++ "`: " ++ e) := by
            simp [srcErrF, hsl]
          rw [hsel]
          show (collectSources (.error _ :: _)).2 = _
          rw [show ∀ x xs, (collectSources (.error x :: xs)).2 = x :: (collectSources xs).2
            from fun x xs => rfl]
          rw [ih]
          congr 1
          simp [String.append_assoc]
      | ok src =>
          have hinst : installSource sl pl ctx t m a (s, ps) =
              .ok (ps.map fun ip =>
                (ip.1, withCtx ("failed to install plugin `" ++ ip.2.name ++ "`")
                  (pl ctx t src m a ip.2))) := by
            simp [installSource, hsl, withCtx]
          rw [hinst]
          have hsel : srcErrF sl ctx s = none := by simp [srcErrF, hsl]
          rw [hsel]
          show (collectSources (.ok _ :: _)).2 = _
          rw [show ∀ g gs, (collectSources (.ok g :: gs)).2 = (collectSources gs).2
            from fun g gs => rfl]
          exact ih

theorem partition_filterMap_perm (sl : SourceLock) (pl : PluginLock)
    (ctx : LockContext) (t : List (String × Template)) (m a : List String) :
    ∀ l : List (Nat × Plugin),
      (l.filterMap (specOutcomeTagged sl pl ctx t m a)).Perm
        (((partitionPlugins l).1.filterMap fun ip =>
            specOutcomeTagged sl pl ctx t m a (ip.1, Plugin.external ip.2)) ++
          (partitionPlugins l).2)
  | [] => by simp [partitionPlugins]
  | (i, Plugin.external p) :: rest => by
      have ih := partition_filterMap_perm sl pl ctx t m a rest
      simp only [partitionPlugins, List.filterMap_cons]
      cases hout : specOutcomeTagged sl pl ctx t m a (i, Plugin.external p) with
      | none => exact ih
      | some x => exact ih.cons x
  | (i, Plugin.inline p) :: rest => by
      have ih := partition_filterMap_perm sl pl ctx t m a rest
      simp only [partitionPlugins, List.filterMap_cons]
      have hout : specOutcomeTagged sl pl ctx t m a (i, Plugin.inline p) =
          some (i, LockedPlugin.inline p) := rfl
      rw [hout]
      exact (ih.cons _).trans List.perm_middle.symm

theorem pairwise_lt_enum {α : Type} (l : List α) :
    List.Pairwise (fun x y => x.1 < y.1) l.enum := by
  have h := List.pairwise_lt_range l.length
  rw [← List.enum_map_fst] at h
  exact List.pairwise_map.mp h

theorem pairwise_partition_snd :
    ∀ l : List (Nat × Plugin),
      List.Pairwise (fun x y => x.1 < y.1) l →
      List.Pairwise (fun x y => x.1 < y.1) (partitionPlugins l).2
  | [], _ => List.Pairwise.nil
  | (i, Plugin.external p) :: rest, h => by
      simp only [partitionPlugins]
      exact pairwise_partition_snd rest h.tail
  | (i, Plugin.inline p) :: rest, h => by
      simp only [partitionPlugins]
      refine (pairwise_partition_snd rest h.tail).cons ?_
      intro x hx
      have hsub : ∀ m : List (Nat × Plugin), ∀ y ∈ (partitionPlugins m).2,
          ∃ z ∈ m, z.1 = y.1 := by
        intro m
        induction m with
        | nil => intro y hy; simp [partitionPlugins] at hy
        | cons hd tl ihm =>
            obtain ⟨j, q⟩ := hd
            intro y hy
            cases q with
            | external q =>
                simp only [partitionPlugins] at hy
                obtain ⟨z, hz, hz1⟩ := ihm y hy
                exact ⟨z, by simp [hz], hz1⟩
            | inline q =>
                simp only [partitionPlugins, List.mem_cons] at hy
                rcases hy with hy | hy
                · exact ⟨(j, Plugin.inline q), by simp, by simp [hy]⟩
                · obtain ⟨z, hz, hz1⟩ := ihm y hy
                  exact ⟨z, by simp [hz], hz1⟩
      obtain ⟨z, hz, hz1⟩ := hsub rest x hx
      have hcons := List.pairwise_cons.mp h
      rw [← hz1]
      exact hcons.1 z hz

theorem filterMap_tagged_map_snd (sl : SourceLock) (pl : PluginLock)
    (ctx : LockContext) (t : List (String × Template)) (m a : List String) :
    ∀ l : List (Nat × Plugin),
      ((l.filterMap (specOutcomeTagged sl pl ctx t m a)).map Prod.snd) =
        (l.map Prod.snd).filterMap (specLockOutcome sl pl ctx t m a)
  | [] => rfl
  | (i, p) :: rest => by
      have ih := filterMap_tagged_map_snd sl pl ctx t m a rest
      simp only [List.filterMap_cons, List.map_cons, specOutcomeTagged]
      cases hout : specLockOutcome sl pl ctx t m a p with
      | none => simpa [hout] using ih
      | some lp => simp [hout, ih]

theorem groupBySource_flatten_perm (ext : List (Nat × ExternalPlugin)) :
    (((groupBySource ext).map Prod.snd).flatten).Perm ext := by
  have h := flatten_foldl_ixPush
    (fun ip : Nat × ExternalPlugin => ip.2.source) ext []
  simpa [groupBySource] using h

theorem groupBySource_groupedBy (ext : List (Nat × ExternalPlugin)) :
    GroupedBy (fun ip => ip.2.source) (groupBySource ext) :=
  groupedBy_foldl_ixPush _ ext [] (by intro e he; simp at he)

theorem groupBySource_keys_nodup (ext : List (Nat × ExternalPlugin)) :
    ((groupBySource ext).map Prod.fst).Nodup :=
  keys_nodup_foldl_ixPush _ ext [] (by simp)

theorem mem_groupBySource_keys (ext : List (Nat × ExternalPlugin)) (s : Source) :
    s ∈ (groupBySource ext).map Prod.fst ↔ ∃ ip ∈ ext, ip.2.source = s := by
  have h := mem_keys_foldl_ixPush
    (fun ip : Nat × ExternalPlugin => ip.2.source) s ext []
  simpa using h

theorem specOutcomeTagged_fst (sl : SourceLock) (pl : PluginLock)
    (ctx : LockContext) (t : List (String × Template)) (m a : List String)
    (ip : Nat × Plugin) (b : Nat × LockedPlugin)
    (hb : b ∈ specOutcomeTagged sl pl ctx t m a ip) : b.1 = ip.1 := by
  rw [Option.mem_def] at hb
  cases hout : specLockOutcome sl pl ctx t m a ip.2 with
  | none =>
      rw [show specOutcomeTagged sl pl ctx t m a ip =
        (specLockOutcome sl pl ctx t m a ip.2).map (fun lp => (ip.1, lp))
        from rfl, hout] at hb
      simp at hb
  | some lp =>
      rw [show specOutcomeTagged sl pl ctx t m a ip =
        (specLockOutcome sl pl ctx t m a ip.2).map (fun lp => (ip.1, lp))
        from rfl, hout] at hb
      simp only [Option.map_some'] at hb
      cases hb
      rfl

theorem pairwise_filterMap_tagged (sl : SourceLock) (pl : PluginLock)
    (ctx : LockContext) (t : List (String × Template)) (m a : List String)
    {l : List (Nat × Plugin)} (hl : List.Pairwise (fun x y => x.1 < y.1) l) :
    List.Pairwise (fun x y => x.1 < y.1)
      (l.filterMap (specOutcomeTagged sl pl ctx t m a)) :=
  List.pairwise_filterMap.mpr (hl.imp fun hab x hx y hy => by
    rw [specOutcomeTagged_fst sl pl ctx t m a _ x hx,
      specOutcomeTagged_fst sl pl ctx t m a _ y hy]
    exact hab)

theorem mergeStage_eq (sl : SourceLock) (pl : PluginLock) (ctx : LockContext)
    (t : List (String × Template)) (m a : List String) (l : List (Nat × Plugin))
    (hl : List.Pairwise (fun x y => x.1 < y.1) l) :
    (((collectPlugins (collectSources ((groupBySource
        (partitionPlugins l).1).map (installSource sl pl ctx t m a))).1.flatten).1 ++
      (partitionPlugins l).2).mergeSort fun x y => decide (x.1 ≤ y.1)) =
      l.filterMap (specOutcomeTagged sl pl ctx t m a) := by
  have hg := groupBySource_groupedBy (partitionPlugins l).1
  have h1 := collect_install_fst sl pl ctx t m a _ hg
  have hcomp : (fun ip : Nat × ExternalPlugin =>
      (procPluginE sl pl ctx t m a ip).bind okPluginF) =
      fun ip : Nat × ExternalPlugin =>
        specOutcomeTagged sl pl ctx t m a (ip.1, Plugin.external ip.2) := by
    funext ip
    cases hsl : sl ctx ip.2.source with
    | error e =>
        simp [procPluginE, hsl, specOutcomeTagged, specLockOutcome]
    | ok src =>
        cases hpl : pl ctx t src m a ip.2 with
        | error e =>
            simp [procPluginE, hsl, hpl, specOutcomeTagged, specLockOutcome,
              okPluginF, withCtx]
        | ok lp =>
            simp [procPluginE, hsl, hpl, specOutcomeTagged, specLockOutcome,
              okPluginF, withCtx]
  have hstage : (collectPlugins (collectSources ((groupBySource
      (partitionPlugins l).1).map (installSource sl pl ctx t m a))).1.flatten).1 =
      (((groupBySource (partitionPlugins l).1).map Prod.snd).flatten).filterMap
        fun ip => specOutcomeTagged sl pl ctx t m a (ip.1, Plugin.external ip.2) := by
    rw [collectPlugins_fst, h1, List.filterMap_filterMap, hcomp]
  have hperm1 := List.Perm.filterMap
    (fun ip : Nat × ExternalPlugin =>
      specOutcomeTagged sl pl ctx t m a (ip.1, Plugin.external ip.2))
    (groupBySource_flatten_perm (partitionPlugins l).1)
  have hpre : ((collectPlugins (collectSources ((groupBySource
      (partitionPlugins l).1).map (installSource sl pl ctx t m a))).1.flatten).1 ++
      (partitionPlugins l).2).Perm
      (l.filterMap (specOutcomeTagged sl pl ctx t m a)) := by
    rw [hstage]
    exact (hperm1.append_right _).trans
      (partition_filterMap_perm sl pl ctx t m a l).symm
  have htagged := pairwise_filterMap_tagged sl pl ctx t m a hl
  have hcombined := (List.mergeSort_perm
    ((collectPlugins (collectSources ((groupBySource
      (partitionPlugins l).1).map (installSource sl pl ctx t m a))).1.flatten).1 ++
      (partitionPlugins l).2) (fun x y => decide (x.1 ≤ y.1))).trans hpre
  have hs1 := @List.sorted_mergeSort (Nat × LockedPlugin)
    (fun x y => decide (x.1 ≤ y.1))
    (fun x y z hxy hyz => by
      simp only [decide_eq_true_eq] at *
      omega)
    (fun x y => by
      simp only [Bool.or_eq_true, decide_eq_true_eq]
      exact Nat.le_total x.1 y.1)
    ((collectPlugins (collectSources ((groupBySource
      (partitionPlugins l).1).map (installSource sl pl ctx t m a))).1.flatten).1 ++
      (partitionPlugins l).2)
  have hle : List.Pairwise (fun x y : Nat × LockedPlugin => x.1 ≤ y.1)
      (((collectPlugins (collectSources ((groupBySource
        (partitionPlugins l).1).map (installSource sl pl ctx t m a))).1.flatten).1 ++
        (partitionPlugins l).2).mergeSort fun x y => decide (x.1 ≤ y.1)) :=
    hs1.imp fun h => of_decide_eq_true h
  have hnodup_t : ((l.filterMap
      (specOutcomeTagged sl pl ctx t m a)).map Prod.fst).Nodup :=
    List.pairwise_map.mpr (htagged.imp fun h => Nat.ne_of_lt h)
  have hnodup_ms : ((((collectPlugins (collectSources ((groupBySource
      (partitionPlugins l).1).map (installSource sl pl ctx t m a))).1.flatten).1 ++
      (partitionPlugins l).2).mergeSort fun x y =>
        decide (x.1 ≤ y.1)).map Prod.fst).Nodup :=
    ((hcombined.map Prod.fst).nodup_iff).mpr hnodup_t
  have hne := List.pairwise_map.mp hnodup_ms
  have hsortedlt : List.Pairwise (fun x y : Nat × LockedPlugin => x.1 < y.1)
      (((collectPlugins (collectSources ((groupBySource
        (partitionPlugins l).1).map (installSource sl pl ctx t m a))).1.flatten).1 ++
        (partitionPlugins l).2).mergeSort fun x y => decide (x.1 ≤ y.1)) :=
    (hle.and hne).imp fun h => lt_of_le_of_ne h.1 h.2
  exact List.eq_of_perm_of_sorted hcombined hsortedlt htagged

theorem lockConfig_plugins_eq (sl : SourceLock) (pl : PluginLock)
    (ctx : LockContext) (cfg : Config) :
    (lockConfig sl pl ctx cfg).plugins =
      cfg.plugins.filterMap (specLockOutcome sl pl ctx (effTemplates cfg)
        (effMatches cfg) (effApply cfg)) := by
  have hsnd := filterMap_tagged_map_snd sl pl ctx (effTemplates cfg)
    (effMatches cfg) (effApply cfg) cfg.plugins.enum
  rw [List.enum_map_snd] at hsnd
  simp only [lockConfig, effTemplates, effMatches, effApply] at *
  by_cases hlen :
      (groupBySource (partitionPlugins cfg.plugins.enum).1).length = 0
  · rw [if_pos hlen]
    have hgrp : groupBySource (partitionPlugins cfg.plugins.enum).1 = [] :=
      List.length_eq_zero.mp hlen
    have hext : (partitionPlugins cfg.plugins.enum).1 = [] := by
      have h := groupBySource_flatten_perm (partitionPlugins cfg.plugins.enum).1
      rw [hgrp] at h
      simpa using h.symm.eq_nil
    have hpart := partition_filterMap_perm sl pl ctx
      (mergeTemplates cfg.shell cfg.templates)
      (cfg.«matches».getD cfg.shell.default_matches)
      (cfg.apply.getD Shell.default_apply) cfg.plugins.enum
    rw [hext] at hpart
    simp only [List.filterMap_nil, List.nil_append] at hpart
    have hsorted2 := pairwise_partition_snd cfg.plugins.enum
      (pairwise_lt_enum cfg.plugins)
    have htagged := pairwise_filterMap_tagged sl pl ctx
      (mergeTemplates cfg.shell cfg.templates)
      (cfg.«matches».getD cfg.shell.default_matches)
      (cfg.apply.getD Shell.default_apply) (pairwise_lt_enum cfg.plugins)
    have heq := List.eq_of_perm_of_sorted hpart htagged hsorted2
    rw [← hsnd, heq]
  · rw [if_neg hlen]
    rw [mergeStage_eq sl pl ctx (mergeTemplates cfg.shell cfg.templates)
      (cfg.«matches».getD cfg.shell.default_matches)
      (cfg.apply.getD Shell.default_apply) cfg.plugins.enum
      (pairwise_lt_enum cfg.plugins)]
    exact hsnd

theorem untag_ixPush (m : List (Source × List (Nat × ExternalPlugin)))
    (k : Source) (ip : Nat × ExternalPlugin) :
    (ixPush m k ip).map (fun e => (e.1, e.2.map Prod.snd)) =
      ixPush (m.map fun e => (e.1, e.2.map Prod.snd)) k ip.2 := by
  induction m with
  | nil => simp [ixPush]
  | cons hd tl ih =>
      obtain ⟨k', vs⟩ := hd
      by_cases hk : k' = k
      · simp [ixPush, if_pos hk]
      · simp [ixPush, if_neg hk, ih]

theorem untag_foldl_ixPush :
    ∀ (ext : List (Nat × ExternalPlugin))
      (acc : List (Source × List (Nat × ExternalPlugin))),
      ((ext.foldl (fun m ip => ixPush m ip.2.source ip) acc).map
          fun e => (e.1, e.2.map Prod.snd)) =
        (ext.map Prod.snd).foldl (fun m p => ixPush m p.source p)
          (acc.map fun e => (e.1, e.2.map Prod.snd))
  | [], acc => rfl
  | ip :: rest, acc => by
      rw [List.foldl_cons, List.map_cons, List.foldl_cons,
        untag_foldl_ixPush rest, untag_ixPush]

theorem groupBySource_untag (ext : List (Nat × ExternalPlugin)) :
    (groupBySource ext).map (fun e => (e.1, e.2.map Prod.snd)) =
      groupSrcU (ext.map Prod.snd) := by
  have h := untag_foldl_ixPush ext []
  simpa [groupBySource, groupSrcU] using h

theorem groupBySource_keys_eq (ext : List (Nat × ExternalPlugin)) :
    (groupBySource ext).map Prod.fst =
      (groupSrcU (ext.map Prod.snd)).map Prod.fst := by
  rw [← groupBySource_untag, List.map_map]
  exact (List.map_congr_left fun e _ => rfl).symm

theorem groupSrcU_flatten_eq (ext : List (Nat × ExternalPlugin)) :
    ((groupSrcU (ext.map Prod.snd)).map Prod.snd).flatten =
      (((groupBySource ext).map Prod.snd).flatten).map Prod.snd := by
  rw [← groupBySource_untag, List.map_map, List.map_flatten, List.map_map]
  rfl

theorem partition_fst_map_snd :
    ∀ l : List (Nat × Plugin),
      (partitionPlugins l).1.map Prod.snd = externalsOf (l.map Prod.snd)
  | [] => rfl
  | (i, Plugin.external p) :: rest => by
      simp only [partitionPlugins, List.map_cons, externalsOf,
        List.filterMap_cons]
      rw [← externalsOf, partition_fst_map_snd rest]
  | (i, Plugin.inline p) :: rest => by
      simp only [partitionPlugins, List.map_cons, externalsOf,
        List.filterMap_cons]
      rw [← externalsOf, partition_fst_map_snd rest]

theorem procPluginE_bind_err (sl : SourceLock) (pl : PluginLock)
    (ctx : LockContext) (t : List (String × Template)) (m a : List String)
    (ip : Nat × ExternalPlugin) :
    (procPluginE sl pl ctx t m a ip).bind errPluginF =
      plugErrF sl pl ctx t m a ip.2 := by
  cases hsl : sl ctx ip.2.source with
  | error e => simp [procPluginE, plugErrF, hsl]
  | ok src =>
      cases hpl : pl ctx t src m a ip.2 with
      | error e =>
          simp only [procPluginE, plugErrF, hsl, hpl, errPluginF, withCtx,
            Option.some_bind]
          congr 1
          simp [String.append_assoc]
      | ok lp =>
          simp [procPluginE, plugErrF, hsl, hpl, errPluginF, withCtx]

theorem sourceErrorsSpec_eq (sl : SourceLock) (ctx : LockContext)
    (es : List ExternalPlugin) :
    sourceErrorsSpec sl ctx es =
      (groupSrcU es).filterMap fun e => srcErrF sl ctx e.1 := rfl

theorem pluginErrorsSpec_eq (sl : SourceLock) (pl : PluginLock)
    (ctx : LockContext) (t : List (String × Template)) (m a : List String)
    (es : List ExternalPlugin) :
    pluginErrorsSpec sl pl ctx t m a es =
      ((groupSrcU es).map Prod.snd).flatten.filterMap
        (plugErrF sl pl ctx t m a) := rfl

theorem lockConfig_errors_eq (sl : SourceLock) (pl : PluginLock)
    (ctx : LockContext) (cfg : Config) :
    (lockConfig sl pl ctx cfg).errors =
      sourceErrorsSpec sl ctx (externalsOf cfg.plugins) ++
        pluginErrorsSpec sl pl ctx (effTemplates cfg) (effMatches cfg)
          (effApply cfg) (externalsOf cfg.plugins) := by
  have hEpart : (partitionPlugins cfg.plugins.enum).1.map Prod.snd =
      externalsOf cfg.plugins := by
    rw [partition_fst_map_snd, List.enum_map_snd]
  simp only [lockConfig, effTemplates, effMatches, effApply]
  by_cases hlen :
      (groupBySource (partitionPlugins cfg.plugins.enum).1).length = 0
  · rw [if_pos hlen]
    have hgrp : groupBySource (partitionPlugins cfg.plugins.enum).1 = [] :=
      List.length_eq_zero.mp hlen
    have hext : (partitionPlugins cfg.plugins.enum).1 = [] := by
      have h := groupBySource_flatten_perm (partitionPlugins cfg.plugins.enum).1
      rw [hgrp] at h
      simpa using h.symm.eq_nil
    have hE : externalsOf cfg.plugins = [] := by
      rw [← hEpart, hext]
      rfl
    simp [sourceErrorsSpec, pluginErrorsSpec, groupSrcU, hE]
  · rw [if_neg hlen]
    have hg := groupBySource_groupedBy (partitionPlugins cfg.plugins.enum).1
    have h1err := collect_install_snd sl pl ctx
      (mergeTemplates cfg.shell cfg.templates)
      (cfg.«matches».getD cfg.shell.default_matches)
      (cfg.apply.getD Shell.default_apply)
      (groupBySource (partitionPlugins cfg.plugins.enum).1)
    have h1ok := collect_install_fst sl pl ctx
      (mergeTemplates cfg.shell cfg.templates)
      (cfg.«matches».getD cfg.shell.default_matches)
      (cfg.apply.getD Shell.default_apply)
      (groupBySource (partitionPlugins cfg.plugins.enum).1) hg
    show (collectSources _).2 ++ (collectPlugins (collectSources _).1.flatten).2 = _
    rw [h1err, collectPlugins_snd, h1ok, List.filterMap_filterMap,
      sourceErrorsSpec_eq, pluginErrorsSpec_eq, ← hEpart]
    congr 1
    · rw [groupBySource_keys_eq, List.filterMap_map]
      rfl
    · rw [groupSrcU_flatten_eq, List.filterMap_map]
      have hfun : (fun x : Nat × ExternalPlugin =>
          (procPluginE sl pl ctx (mergeTemplates cfg.shell cfg.templates)
            (cfg.«matches».getD cfg.shell.default_matches)
            (cfg.apply.getD Shell.default_apply) x).bind errPluginF) =
          (plugErrF sl pl ctx (mergeTemplates cfg.shell cfg.templates)
            (cfg.«matches».getD cfg.shell.default_matches)
            (cfg.apply.getD Shell.default_apply)) ∘ Prod.snd :=
        funext fun ip => procPluginE_bind_err sl pl ctx _ _ _ ip
      rw [hfun]

theorem mem_externalsOf (ps : List Plugin) (e : ExternalPlugin) :
    e ∈ externalsOf ps ↔ Plugin.external e ∈ ps := by
  simp only [externalsOf, List.mem_filterMap]
  constructor
  · rintro ⟨p, hp, hpe⟩
    cases p with
    | external q =>
        simp only [Option.some.injEq] at hpe
        rw [← hpe]
        exact hp
    | inline q => simp at hpe
  · intro h
    exact ⟨Plugin.external e, h, rfl⟩

theorem externalsOf_map_external (es : List ExternalPlugin) :
    externalsOf (es.map Plugin.external) = es := by
  have h : ∀ x ∈ es, ((fun p =>
      match p with
      | Plugin.external e => some e
      | Plugin.inline _ => none) ∘ Plugin.external) x = some (id x) :=
    fun x _ => rfl
  rw [externalsOf, List.filterMap_map, filterMap_eq_map_of h, List.map_id]

theorem verifyPlugins_eq (fs : String → Bool) :
    ∀ l : List LockedPlugin,
      verifyPlugins fs l = l.all fun p =>
        match p with
        | LockedPlugin.external e => fs e.dir && e.files.all fs
        | LockedPlugin.inline _ => true
  | [] => rfl
  | LockedPlugin.external p :: rest => by
      rw [verifyPlugins, List.all_cons, verifyPlugins_eq fs rest]
      cases h1 : fs p.dir with
      | false => simp [h1]
      | true =>
          cases h2 : p.files.all fs with
          | false => simp [h1, h2]
          | true => simp [h1, h2]
  | LockedPlugin.inline p :: rest => by
      rw [verifyPlugins, List.all_cons, verifyPlugins_eq fs rest]
      simp

theorem verifyPlugins_iff (fs : String → Bool) (lp : List LockedPlugin) :
    verifyPlugins fs lp = true ↔
      ∀ e : LockedExternalPlugin, LockedPlugin.external e ∈ lp →
        fs e.dir = true ∧ ∀ f ∈ e.files, fs f = true := by
  rw [verifyPlugins_eq, List.all_eq_true]
  constructor
  · intro h e he
    have hx := h (LockedPlugin.external e) he
    simp only [Bool.and_eq_true] at hx
    exact ⟨hx.1, List.all_eq_true.mp hx.2⟩
  · intro h p hp
    cases p with
    | external e =>
        have hx := h e hp
        simp only [Bool.and_eq_true]
        exact ⟨hx.1, List.all_eq_true.mpr hx.2⟩
    | inline q => rfl

theorem specLockOutcome_bind_inline (sl : SourceLock) (pl : PluginLock)
    (ctx : LockContext) (t : List (String × Template)) (m a : List String)
    (p : Plugin) :
    ((specLockOutcome sl pl ctx t m a p).bind fun lp =>
        match lp with
        | LockedPlugin.inline q => some q
        | LockedPlugin.external _ => none) =
      match p with
      | Plugin.inline q => some q
      | Plugin.external _ => none := by
  cases p with
  | inline q => rfl
  | external e =>
      cases hsl : sl ctx e.source with
      | error err => simp [specLockOutcome, hsl]
      | ok src =>
          cases hpl : pl ctx t src m a e with
          | error err => simp [specLockOutcome, hsl, hpl]
          | ok lp => simp [specLockOutcome, hsl, hpl]

/-! ### Claim theorems -/

/-- C1: for every input config and arbitrary collaborator behaviour, the locked
plugin sequence equals the order-preserving `filterMap` of the per-plugin outcome
over the original declaration list: the parallel stage tags plugins with their
declaration index and the final sort restores declaration order, so the relative
order of successfully locked plugins equals their relative order in the input,
independent of task completion order. -/
theorem claim1_lock_preserves_declaration_order (sl : SourceLock)
    (pl : PluginLock) (ctx : LockContext) (cfg : Config) :
    (lockConfig sl pl ctx cfg).plugins =
      cfg.plugins.filterMap (specLockOutcome sl pl ctx (effTemplates cfg)
        (effMatches cfg) (effApply cfg)) :=
  lockConfig_plugins_eq sl pl ctx cfg

/-- C2: the install stage passes to the source installer exactly the keys of the
source-grouped map: a duplicate-free list containing a source iff some external
plugin declares it, so a `Source` shared by N plugins is installed once, never N
times. -/
theorem claim2_source_installed_exactly_once (cfg : Config) :
    (sourceInstallCalls cfg).Nodup ∧
      ∀ s : Source, s ∈ sourceInstallCalls cfg ↔
        ∃ e : ExternalPlugin, Plugin.external e ∈ cfg.plugins ∧ e.source = s := by
  have hEpart : (partitionPlugins cfg.plugins.enum).1.map Prod.snd =
      externalsOf cfg.plugins := by
    rw [partition_fst_map_snd, List.enum_map_snd]
  refine ⟨groupBySource_keys_nodup _, ?_⟩
  intro s
  rw [sourceInstallCalls, mem_groupBySource_keys]
  constructor
  · rintro ⟨ip, hip, hs⟩
    have hmem : ip.2 ∈ externalsOf cfg.plugins := by
      rw [← hEpart]
      exact List.mem_map_of_mem Prod.snd hip
    exact ⟨ip.2, (mem_externalsOf _ _).mp hmem, hs⟩
  · rintro ⟨e, he, hs⟩
    have hmem : e ∈ (partitionPlugins cfg.plugins.enum).1.map Prod.snd := by
      rw [hEpart, mem_externalsOf]
      exact he
    obtain ⟨ip, hip, hip2⟩ := List.mem_map.mp hmem
    exact ⟨ip, hip, by rw [hip2]; exact hs⟩

/-- C3: the output plugin list is never longer than the input, it is exactly the
order-preserving filter of the per-plugin outcomes (a plugin is dropped iff its
source failed to install or its own lock failed), and the error list is exactly one
context-tagged error per failed unique source followed by one per failed plugin
lock on a successfully installed source — so an independent source's failure leaves
the other plugins in the output. -/
theorem claim3_partial_failure_isolated (sl : SourceLock) (pl : PluginLock)
    (ctx : LockContext) (cfg : Config) :
    (lockConfig sl pl ctx cfg).plugins.length ≤ cfg.plugins.length ∧
    (lockConfig sl pl ctx cfg).plugins =
      cfg.plugins.filterMap (specLockOutcome sl pl ctx (effTemplates cfg)
        (effMatches cfg) (effApply cfg)) ∧
    (lockConfig sl pl ctx cfg).errors =
      sourceErrorsSpec sl ctx (externalsOf cfg.plugins) ++
        pluginErrorsSpec sl pl ctx (effTemplates cfg) (effMatches cfg)
          (effApply cfg) (externalsOf cfg.plugins) := by
  refine ⟨?_, lockConfig_plugins_eq sl pl ctx cfg,
    lockConfig_errors_eq sl pl ctx cfg⟩
  rw [lockConfig_plugins_eq]
  exact List.length_filterMap_le _ _

/-- C4: the lock operation never fails as a whole: for every input — including
collaborators that fail on every call — `config` returns the `Ok` variant, with all
collaborator failures recorded inside the returned `LockedConfig`. -/
theorem claim4_lock_never_fails (sl : SourceLock) (pl : PluginLock)
    (ctx : LockContext) (cfg : Config) :
    ∃ locked : LockedConfig, config sl pl ctx cfg = Except.ok locked :=
  ⟨lockConfig sl pl ctx cfg, rfl⟩

/-- C5: for any shell and any user template map with distinct names, the effective
template map is the shell's defaults in their defined order with user values
overwriting in place (an overridden name such as `"source"` keeps its default
position), followed by the user's new names in user order; the merge is a pure
function of shell and user templates. -/
theorem claim5_template_merge (shell : Shell)
    (user : List (String × Template)) (h : (user.map Prod.fst).Nodup) :
    mergeTemplates shell user = specTemplateMerge shell user := by
  have hb : ((Shell.default_templates shell).map Prod.fst).Nodup := by
    cases shell <;> decide
  exact foldl_ixInsert_eq hb h

/-- Witness for C5: a user template named `"source"` overriding the zsh default
keeps its original position in the default ordering. -/
theorem claim5_template_merge_witness :
    ((([("source", { value := "src", each := false })] :
        List (String × Template)).map Prod.fst).Nodup) ∧
      mergeTemplates Shell.zsh [("source", { value := "src", each := false })] =
        specTemplateMerge Shell.zsh
          [("source", { value := "src", each := false })] :=
  ⟨by decide, claim5_template_merge Shell.zsh _ (by decide)⟩

/-- C6: `verify` returns true iff the recorded settings equal the context's
settings and every locked external plugin's resolved directory (`dir()`) and every
file in its file list exists; inline plugins never affect the verdict (prepending an
inline plugin leaves the result unchanged). -/
theorem claim6_verify_characterization (fs : String → Bool) (ctx : LockContext)
    (l : LockedConfig) :
    (LockedConfig.verify fs l ctx = true ↔
      l.settings = ctx.settings ∧
        ∀ e : LockedExternalPlugin, LockedPlugin.external e ∈ l.plugins →
          fs e.dir = true ∧ ∀ f ∈ e.files, fs f = true) ∧
    (∀ q : InlinePlugin,
      LockedConfig.verify fs
        { l with plugins := LockedPlugin.inline q :: l.plugins } ctx =
        LockedConfig.verify fs l ctx) := by
  constructor
  · rw [LockedConfig.verify]
    by_cases hset : l.settings = ctx.settings
    · rw [if_neg (not_ne_iff.mpr hset)]
      rw [verifyPlugins_iff]
      simp [hset]
    · rw [if_pos hset]
      simp [hset]
  · intro q
    show (if l.settings ≠ ctx.settings then false
        else verifyPlugins fs (LockedPlugin.inline q :: l.plugins)) =
      (if l.settings ≠ ctx.settings then false else verifyPlugins fs l.plugins)
    by_cases hset : l.settings = ctx.settings
    · rw [if_neg (not_ne_iff.mpr hset), if_neg (not_ne_iff.mpr hset)]
      rfl
    · rw [if_pos hset, if_pos hset]

/-- C8: when there are no external plugins the output is exactly the inline plugins
in declaration order; with zero plugins (and no user templates) the lock is the
settings snapshot with the shell's unmodified default templates, no errors and no
plugins. -/
theorem claim8_no_externals (sl : SourceLock) (pl : PluginLock)
    (ctx : LockContext) (cfg : Config) :
    (∀ ps : List InlinePlugin, cfg.plugins = ps.map Plugin.inline →
      (lockConfig sl pl ctx cfg).plugins = ps.map LockedPlugin.inline) ∧
    (cfg.plugins = [] → cfg.templates = [] →
      lockConfig sl pl ctx cfg =
        { settings := ctx.settings, templates := cfg.shell.default_templates,
          errors := [], plugins := [] }) := by
  constructor
  · intro ps h
    rw [lockConfig_plugins_eq, h, List.filterMap_map]
    exact filterMap_eq_map_of fun q _ => rfl
  · intro hp ht
    simp [lockConfig, hp, ht, partitionPlugins, groupBySource, mergeTemplates]

/-- Witness for C8: a single inline plugin survives unchanged, and the empty config
locks to the empty artifact with the zsh defaults. -/
theorem claim8_no_externals_witness :
    ((lockConfig slFail plFail ctxW cfgInlineW).plugins =
      [LockedPlugin.inline ⟨"i", "echo"⟩]) ∧
    lockConfig slFail plFail ctxW cfgEmptyW =
      { settings := settingsW, templates := Shell.zsh.default_templates,
        errors := [], plugins := [] } :=
  ⟨(claim8_no_externals slFail plFail ctxW cfgInlineW).1 [⟨"i", "echo"⟩] rfl,
    (claim8_no_externals slFail plFail ctxW cfgEmptyW).2 rfl rfl⟩

/-- C9: every inline plugin of the input appears unchanged in the output (the
inline sub-sequence of the output equals the inline sub-sequence of the input), and
the error list is the same as for the config containing only the external plugins —
inline plugins bypass both collaborator stages and can neither be dropped nor
produce an error. -/
theorem claim9_inline_unchanged (sl : SourceLock) (pl : PluginLock)
    (ctx : LockContext) (cfg : Config) :
    ((lockConfig sl pl ctx cfg).plugins.filterMap fun lp =>
        match lp with
        | LockedPlugin.inline q => some q
        | LockedPlugin.external _ => none) =
      (cfg.plugins.filterMap fun p =>
        match p with
        | Plugin.inline q => some q
        | Plugin.external _ => none) ∧
    (lockConfig sl pl ctx cfg).errors =
      (lockConfig sl pl ctx
        { cfg with
          plugins := (externalsOf cfg.plugins).map Plugin.external }).errors := by
  constructor
  · rw [lockConfig_plugins_eq, List.filterMap_filterMap]
    refine congrArg (fun f => List.filterMap f cfg.plugins) ?_
    funext p
    exact specLockOutcome_bind_inline sl pl ctx _ _ _ p
  · rw [lockConfig_errors_eq, lockConfig_errors_eq, externalsOf_map_external]
    rfl

/-- C10: the default apply list takes no shell parameter and is `["source"]` for
every dialect, unlike the default match patterns and default templates, which
differ between bash and zsh. -/
theorem claim10_default_apply_shell_independent :
    Shell.default_apply = ["source"] ∧
    Shell.bash.default_matches ≠ Shell.zsh.default_matches ∧
    Shell.bash.default_templates ≠ Shell.zsh.default_templates :=
  ⟨rfl, by decide, by decide⟩

theorem expectL_append : ∀ pat r : List Char, expectL pat (pat ++ r) = some r
  | [], r => rfl
  | p :: ps, r => by simp [expectL, expectL_append ps r]

theorem splitAtQuote_enc :
    ∀ (v : List Char) (r : List Char), '"' ∉ v →
      splitAtQuote (v ++ '"' :: r) = some (v, r)
  | [], r, _ => by simp [splitAtQuote]
  | c :: cs, r, h => by
      simp only [List.mem_cons] at h
      push_neg at h
      have hne : ¬ c = '"' := fun hh => h.1 hh.symm
      simp [splitAtQuote, hne, splitAtQuote_enc cs r h.2]

theorem cleanStr_no_quote {v : String} (h : cleanStr v = true) : '"' ∉ v.data := by
  simp only [cleanStr, Bool.and_eq_true, Bool.not_eq_true'] at h
  intro hc
  have hcon : v.data.contains '"' = true := List.elem_eq_true_of_mem hc
  rw [hcon] at h
  exact absurd h.1 (by simp)

theorem parseQuoted_enc (v : String) (r : List Char) (hv : cleanStr v = true) :
    parseQuoted (encStr v ++ r) = some (v, r) := by
  have h1 : encStr v ++ r = '"' :: (v.data ++ ('"' :: r)) := by
    simp [encStr]
  rw [h1]
  simp only [parseQuoted, splitAtQuote_enc v.data r (cleanStr_no_quote hv)]

theorem parseField_enc (key v : String) (r : List Char)
    (hv : cleanStr v = true) :
    parseField key (encField key v ++ r) = some (v, r) := by
  have h1 : encField key v ++ r =
      (key.data ++ " = ".data) ++ (encStr v ++ ('\n' :: r)) := by
    simp [encField]
  rw [parseField, h1, expectL_append]
  simp [parseQuoted_enc v ('\n' :: r) hv]

theorem parseOptStr_enc (o : Option String) (r : List Char)
    (ho : cleanOpt o = true) :
    parseOptStr (encOptStr o ++ r) = some (o, r) := by
  cases o with
  | none =>
      show parseOptStr ('n' :: ("one".data ++ r)) = some (none, r)
      rw [parseOptStr]
      simp [expectL]
      intro rest hcon
      simp at hcon
  | some s =>
      show parseOptStr ('"' :: ((s.data ++ ['"']) ++ r)) = some (some s, r)
      rw [parseOptStr]
      have h2 : parseQuoted ('"' :: (s.data ++ '"' :: r)) = some (s, r) := by
        have he : ('"' : Char) :: (s.data ++ '"' :: r) = encStr s ++ r := by
          simp [encStr]
        rw [he]
        exact parseQuoted_enc s r ho
      simp [h2]

theorem parseQuoted_enc_cons (v : String) (x : List Char)
    (hv : cleanStr v = true) :
    parseQuoted ('"' :: (v.data ++ '"' :: x)) = some (v, x) := by
  have he : ('"' : Char) :: (v.data ++ '"' :: x) = encStr v ++ x := by
    simp [encStr]
  rw [he]
  exact parseQuoted_enc v x hv

theorem parseStrListTail_enc :
    ∀ (vs : List String) (fuel : Nat) (r : List Char),
      vs.all cleanStr = true → vs.length ≤ fuel →
      parseStrListTail fuel (encStrListTail vs ++ r) = some (vs, r)
  | [], fuel, r, _, _ => by
      show parseStrListTail fuel (']' :: r) = some ([], r)
      rw [parseStrListTail]
  | v :: vs', fuel, r, hc, hf => by
      simp only [List.all_cons, Bool.and_eq_true] at hc
      obtain ⟨f, rfl⟩ : ∃ f, fuel = f + 1 := by
        cases fuel with
        | zero => simp at hf
        | succ f => exact ⟨f, rfl⟩
      have hlen : vs'.length ≤ f := by
        simp only [List.length_cons] at hf
        omega
      have h1 : encStrListTail (v :: vs') ++ r =
          ',' :: ' ' :: (encStr v ++ (encStrListTail vs' ++ r)) := by
        simp [encStrListTail]
      rw [h1, parseStrListTail]
      simp [parseQuoted_enc v (encStrListTail vs' ++ r) hc.1,
        parseStrListTail_enc vs' f r hc.2 hlen]

theorem parseStrList_enc (vs : List String) (fuel : Nat) (r : List Char)
    (hc : vs.all cleanStr = true) (hf : vs.length ≤ fuel) :
    parseStrList fuel (encStrList vs ++ r) = some (vs, r) := by
  cases vs with
  | nil =>
      show parseStrList fuel ('[' :: ']' :: r) = some ([], r)
      rw [parseStrList]
  | cons v vs' =>
      simp only [List.all_cons, Bool.and_eq_true] at hc
      have hlen : vs'.length ≤ fuel := by
        simp only [List.length_cons] at hf
        omega
      have h1 : encStrList (v :: vs') ++ r =
          '[' :: '"' :: (v.data ++ '"' :: (encStrListTail vs' ++ r)) := by
        simp [encStrList, encStr]
      rw [h1, parseStrList]
      simp [parseQuoted_enc_cons v (encStrListTail vs' ++ r) hc.1,
        parseStrListTail_enc vs' fuel r hc.2 hlen]
      intro r1 hcon
      simp at hcon

theorem cons_head_ext (X : List Char) :
    "external name = ".data ++ X = 'e' :: ("xternal name = ".data ++ X) := rfl

theorem cons_head_inl (X : List Char) :
    "inline name = ".data ++ X = 'i' :: ("nline name = ".data ++ X) := rfl

theorem parsePlugin_enc (fuel : Nat) (p : LockedPlugin) (r : List Char)
    (hwf : lockedPluginWF p = true) (hf : pluginFuelNeed p ≤ fuel) :
    parsePlugin fuel (encPlugin p ++ r) = some (p, r) := by
  cases p with
  | external q =>
      simp only [lockedPluginWF, Bool.and_eq_true] at hwf
      obtain ⟨⟨⟨⟨h1, h2⟩, h3⟩, h4⟩, h5⟩ := hwf
      simp only [pluginFuelNeed] at hf
      have hff : q.files.length ≤ fuel := le_trans (Nat.le_max_left _ _) hf
      have hfa : q.apply.length ≤ fuel := le_trans (Nat.le_max_right _ _) hf
      have he : encPlugin (LockedPlugin.external q) ++ r =
          "external name = ".data ++ (encStr q.name ++ (" source_dir = ".data ++
            (encStr q.source_dir ++ (" plugin_dir = ".data ++
              (encOptStr q.plugin_dir ++ (" files = ".data ++
                (encStrList q.files ++ (" apply = ".data ++
                  (encStrList q.apply ++ ('\n' :: r)))))))))) := by
        simp [encPlugin]
      rw [he, cons_head_ext, parsePlugin]
      simp [expectL, parseQuoted_enc, parseOptStr_enc, parseStrList_enc,
        h1, h2, h3, h4, h5, hff, hfa]
  | inline q =>
      simp only [lockedPluginWF, Bool.and_eq_true] at hwf
      obtain ⟨h1, h2⟩ := hwf
      have he : encPlugin (LockedPlugin.inline q) ++ r =
          "inline name = ".data ++ (encStr q.name ++ (" raw = ".data ++
            (encStr q.raw ++ ('\n' :: r)))) := by
        simp [encPlugin]
      rw [he, cons_head_inl, parsePlugin]
      simp [expectL, parseQuoted_enc, h1, h2]

theorem parsePluginsTail_enc :
    ∀ (ps : List LockedPlugin) (fuel : Nat) (r : List Char),
      ps.all lockedPluginWF = true → pluginsFuelNeed ps ≤ fuel →
      parsePluginsTail fuel ((ps.map encPlugin).flatten ++ (']' :: '\n' :: r)) =
        some (ps, r)
  | [], fuel, r, _, _ => by
      show parsePluginsTail fuel (']' :: '\n' :: r) = some ([], r)
      rw [parsePluginsTail]
  | p :: ps', fuel, r, hwf, hf => by
      simp only [List.all_cons, Bool.and_eq_true] at hwf
      simp only [pluginsFuelNeed] at hf
      obtain ⟨f, rfl⟩ : ∃ f, fuel = f + 1 := by
        cases fuel with
        | zero => omega
        | succ f => exact ⟨f, rfl⟩
      have hfp : pluginFuelNeed p ≤ f := by
        have := Nat.le_max_left (pluginFuelNeed p) (pluginsFuelNeed ps')
        omega
      have hfr : pluginsFuelNeed ps' ≤ f := by
        have := Nat.le_max_right (pluginFuelNeed p) (pluginsFuelNeed ps')
        omega
      have h1 : ((p :: ps').map encPlugin).flatten ++ (']' :: '\n' :: r) =
          encPlugin p ++
            ((ps'.map encPlugin).flatten ++ (']' :: '\n' :: r)) := by
        simp
      rw [h1]
      have hrec := parsePluginsTail_enc ps' f r hwf.2 hfr
      cases p with
      | external q =>
          obtain ⟨tail, htail⟩ :
              ∃ tail, encPlugin (LockedPlugin.external q) = 'e' :: tail :=
            ⟨_, rfl⟩
          rw [htail, List.cons_append, parsePluginsTail]
          have hpp : parsePlugin f ('e' :: (tail ++
              ((ps'.map encPlugin).flatten ++ (']' :: '\n' :: r)))) =
              some (LockedPlugin.external q,
                (ps'.map encPlugin).flatten ++ (']' :: '\n' :: r)) := by
            rw [show ('e' : Char) :: (tail ++
                ((ps'.map encPlugin).flatten ++ (']' :: '\n' :: r))) =
                encPlugin (LockedPlugin.external q) ++
                  ((ps'.map encPlugin).flatten ++ (']' :: '\n' :: r)) from by
              rw [htail, List.cons_append]]
            exact parsePlugin_enc f _ _ hwf.1 hfp
          simp [hpp, hrec]
          intro r1 hcon
          simp at hcon
      | inline q =>
          obtain ⟨tail, htail⟩ :
              ∃ tail, encPlugin (LockedPlugin.inline q) = 'i' :: tail :=
            ⟨_, rfl⟩
          rw [htail, List.cons_append, parsePluginsTail]
          have hpp : parsePlugin f ('i' :: (tail ++
              ((ps'.map encPlugin).flatten ++ (']' :: '\n' :: r)))) =
              some (LockedPlugin.inline q,
                (ps'.map encPlugin).flatten ++ (']' :: '\n' :: r)) := by
            rw [show ('i' : Char) :: (tail ++
                ((ps'.map encPlugin).flatten ++ (']' :: '\n' :: r))) =
                encPlugin (LockedPlugin.inline q) ++
                  ((ps'.map encPlugin).flatten ++ (']' :: '\n' :: r)) from by
              rw [htail, List.cons_append]]
            exact parsePlugin_enc f _ _ hwf.1 hfp
          simp [hpp, hrec]
          intro r1 hcon
          simp at hcon

theorem parsePlugins_enc (ps : List LockedPlugin) (fuel : Nat) (r : List Char)
    (hwf : ps.all lockedPluginWF = true) (hf : pluginsFuelNeed ps ≤ fuel) :
    parsePlugins fuel (encPlugins ps ++ r) = some (ps, r) := by
  cases ps with
  | nil =>
      have h1 : encPlugins [] ++ r =
          "plugins = [".data ++ (']' :: '\n' :: r) := rfl
      rw [h1, parsePlugins, expectL_append]
      rfl
  | cons p ps' =>
      have h1 : encPlugins (p :: ps') ++ r =
          "plugins = [".data ++
            ('\n' :: (((p :: ps').map encPlugin).flatten ++
              (']' :: '\n' :: r))) := by
        simp [encPlugins]
      rw [h1, parsePlugins, expectL_append]
      have h2 := parsePluginsTail_enc (p :: ps') fuel r hwf hf
      simp only [List.map_cons, List.flatten_cons, List.append_assoc] at h2
      simp [h2]

theorem parseTemplates_enc :
    ∀ (ts : List (String × Template)) (fuel : Nat),
      ts.all templateEntryWF = true → ts.length ≤ fuel →
      parseTemplates fuel ((ts.map encTemplate).flatten) = some ts
  | [], fuel, _, _ => by
      show parseTemplates fuel [] = some []
      rw [parseTemplates]
  | t :: ts', fuel, hwf, hf => by
      simp only [List.all_cons, Bool.and_eq_true, templateEntryWF] at hwf
      obtain ⟨⟨hc1, hc2⟩, hwts⟩ := hwf
      obtain ⟨f, rfl⟩ : ∃ f, fuel = f + 1 := by
        cases fuel with
        | zero => simp at hf
        | succ f => exact ⟨f, rfl⟩
      have hlen : ts'.length ≤ f := by
        simp only [List.length_cons] at hf
        omega
      have hrec := parseTemplates_enc ts' f hwts hlen
      have h1 : (((t :: ts').map encTemplate).flatten) =
          '"' :: (t.1.data ++ ('"' :: (" = ".data ++ (encStr t.2.value ++
            (" each = ".data ++
              ((if t.2.each then "true".data else "false".data) ++
                ('\n' :: ((ts'.map encTemplate).flatten)))))))) := by
        simp [encTemplate, encStr]
      rw [h1, parseTemplates]
      cases he : t.2.each with
      | true =>
          simp only [he, if_pos]
          have ht : (⟨t.2.value, true⟩ : Template) = t.2 := by rw [← he]
          simp [expectL, parseQuoted_enc_cons, parseQuoted_enc, hc1, hc2,
            hrec, ht]
      | false =>
          simp only [he, if_neg]
          have ht : (⟨t.2.value, false⟩ : Template) = t.2 := by rw [← he]
          simp [expectL, parseQuoted_enc_cons, parseQuoted_enc, hc1, hc2,
            hrec, ht]
      all_goals (intro hcon; simp at hcon)

theorem encStrListTail_len :
    ∀ vs : List String, vs.length + 1 ≤ (encStrListTail vs).length
  | [] => by simp [encStrListTail]
  | v :: vs' => by
      have := encStrListTail_len vs'
      simp only [encStrListTail, List.length_cons, List.length_append]
      omega

theorem encStrList_len (vs : List String) :
    vs.length + 2 ≤ (encStrList vs).length := by
  cases vs with
  | nil => simp [encStrList]
  | cons v vs' =>
      have h1 := encStrListTail_len vs'
      have h2 : 2 ≤ (encStr v).length := by
        simp only [encStr, List.length_cons, List.length_append]
        omega
      simp only [encStrList, List.length_cons, List.length_append]
      omega

theorem encPlugin_len (p : LockedPlugin) :
    pluginFuelNeed p + 1 ≤ (encPlugin p).length := by
  cases p with
  | external q =>
      have h1 := encStrList_len q.files
      have h2 := encStrList_len q.apply
      have hlen : (encStrList q.files).length + (encStrList q.apply).length ≤
          (encPlugin (LockedPlugin.external q)).length := by
        simp [encPlugin]
        omega
      simp only [pluginFuelNeed]
      rcases Nat.le_total q.files.length q.apply.length with h | h
      · rw [Nat.max_eq_right h]
        omega
      · rw [Nat.max_eq_left h]
        omega
  | inline q =>
      have hlen : 1 ≤ (encPlugin (LockedPlugin.inline q)).length := by
        simp [encPlugin]
      simp only [pluginFuelNeed]
      omega

theorem pluginsFlatten_len :
    ∀ ps : List LockedPlugin,
      pluginsFuelNeed ps ≤ ((ps.map encPlugin).flatten).length
  | [] => by simp [pluginsFuelNeed]
  | p :: ps' => by
      have h1 := encPlugin_len p
      have h2 := pluginsFlatten_len ps'
      simp only [pluginsFuelNeed, List.map_cons, List.flatten_cons,
        List.length_append]
      rcases Nat.le_total (pluginFuelNeed p) (pluginsFuelNeed ps') with h | h
      · rw [Nat.max_eq_right h]
        omega
      · rw [Nat.max_eq_left h]
        omega

theorem encPlugins_len (ps : List LockedPlugin) :
    pluginsFuelNeed ps ≤ (encPlugins ps).length := by
  cases ps with
  | nil => simp [pluginsFuelNeed]
  | cons p ps' =>
      have h := pluginsFlatten_len (p :: ps')
      simp only [List.map_cons, List.flatten_cons, List.length_append] at h
      simp only [encPlugins, List.length_append]
      omega

theorem encTemplate_len (t : String × Template) : 1 ≤ (encTemplate t).length := by
  simp only [encTemplate, encStr, List.length_append, List.length_cons]
  omega

theorem templatesFlatten_len :
    ∀ ts : List (String × Template),
      ts.length ≤ ((ts.map encTemplate).flatten).length
  | [] => by simp
  | t :: ts' => by
      have h1 := encTemplate_len t
      have h2 := templatesFlatten_len ts'
      simp only [List.map_cons, List.flatten_cons, List.length_append,
        List.length_cons]
      omega

theorem parse_encLockedConfig (l : LockedConfig)
    (hwf : lockedConfigWF l = true) :
    parseLockedConfig (encLockedConfig l) = some l := by
  simp only [lockedConfigWF, Bool.and_eq_true, decide_eq_true_eq] at hwf
  obtain ⟨⟨⟨⟨⟨⟨⟨⟨⟨⟨hv, hh⟩, hcd⟩, hdd⟩, hcf⟩, hlf⟩, hcl⟩, hdl⟩, hps⟩, hts⟩,
    herr⟩ := hwf
  have hb1 : pluginsFuelNeed l.plugins ≤ (encLockedConfig l).length := by
    have h := encPlugins_len l.plugins
    simp only [encLockedConfig, List.length_append]
    omega
  have hb2 : l.templates.length ≤ (encLockedConfig l).length := by
    have h := templatesFlatten_len l.templates
    simp only [encLockedConfig, List.length_append, List.length_cons]
    omega
  have hl : l = ⟨l.settings, l.templates, [], l.plugins⟩ := by
    rw [← herr]
  obtain ⟨L, hLdef⟩ : ∃ L, (encLockedConfig l).length = L := ⟨_, rfl⟩
  rw [hLdef] at hb1 hb2
  rw [parseLockedConfig, hLdef]
  rw [show encLockedConfig l =
      encField "version" l.settings.version ++
        (encField "home" l.settings.home ++
          (encField "config_dir" l.settings.config_dir ++
            (encField "data_dir" l.settings.data_dir ++
              (encField "config_file" l.settings.config_file ++
                (encField "lock_file" l.settings.lock_file ++
                  (encField "clone_dir" l.settings.clone_dir ++
                    (encField "download_dir" l.settings.download_dir ++
                      (encPlugins l.plugins ++
                        ('\n' :: ("[templates]\n".data ++
                          (l.templates.map encTemplate).flatten))))))))))
    from rfl]
  simp [parseField_enc, hv, hh, hcd, hdd, hcf, hlf, hcl, hdl,
    parsePlugins_enc, hps, hb1, expectL, parseTemplates_enc, hts, hb2, herr]
  exact hl.symm

/-- C7: for every well-formed `LockedConfig`, deserializing the text produced by
serializing it yields the value back, and serialization is byte-stable: any value
the round trip produces serializes to the identical text (so
serialize-after-deserialize reproduces the lock-file text byte for byte, including
the empty-but-present templates section). -/
theorem claim7_roundtrip (l : LockedConfig) (hwf : lockedConfigWF l = true) :
    from_str (LockedConfig.to_str l) = Except.ok l ∧
      ∀ l' : LockedConfig, from_str (LockedConfig.to_str l) = Except.ok l' →
        LockedConfig.to_str l' = LockedConfig.to_str l := by
  have h1 : from_str (LockedConfig.to_str l) = Except.ok l := by
    rw [from_str]
    have hd : (LockedConfig.to_str l).data = encLockedConfig l := rfl
    rw [hd, parse_encLockedConfig l hwf]
  refine ⟨h1, ?_⟩
  intro l' h2
  rw [h1] at h2
  cases h2
  rfl

/-- Witness for C7: a concrete locked config with an external plugin, an inline
plugin and a template round-trips exactly. -/
theorem claim7_roundtrip_witness :
    lockedConfigWF lcRoundW = true ∧
      (from_str (LockedConfig.to_str lcRoundW) = Except.ok lcRoundW ∧
        ∀ l' : LockedConfig,
          from_str (LockedConfig.to_str lcRoundW) = Except.ok l' →
            LockedConfig.to_str l' = LockedConfig.to_str lcRoundW) :=
  ⟨by decide, claim7_roundtrip lcRoundW (by decide)⟩

/-- Witness for C2: with two plugins sharing one source, the install stage passes
exactly one source to the installer. -/
theorem claim2_source_installed_once_witness :
    sourceInstallCalls cfgShareW = [Source.remote "u"] ∧
      ((sourceInstallCalls cfgShareW).Nodup ∧
        ∀ s : Source, s ∈ sourceInstallCalls cfgShareW ↔
          ∃ e : ExternalPlugin,
            Plugin.external e ∈ cfgShareW.plugins ∧ e.source = s) :=
  ⟨by decide, claim2_source_installed_exactly_once cfgShareW⟩

/-- Witness for C6: the verify characterization at a concrete lock, context and
filesystem. -/
theorem claim6_verify_witness :
    (LockedConfig.verify fsW lcW ctxW = true ↔
      lcW.settings = ctxW.settings ∧
        ∀ e : LockedExternalPlugin, LockedPlugin.external e ∈ lcW.plugins →
          fsW e.dir = true ∧ ∀ f ∈ e.files, fsW f = true) ∧
    (∀ q : InlinePlugin,
      LockedConfig.verify fsW
        { lcW with plugins := LockedPlugin.inline q :: lcW.plugins } ctxW =
        LockedConfig.verify fsW lcW ctxW) :=
  claim6_verify_characterization fsW ctxW lcW
